import Mathlib

/-!
# HD44780 driver over a 74HC595 shift register: embedding and properties

Shallow embedding of `HD44780.c`. The driver controls up to three HD44780
display controllers in 4-bit mode. All lines hang off one shift register:
Q0..Q3 are the data lines D4..D7, Q4 is register select, Q5..Q7 are the
enable lines of display #0..#2.

Conventions of the embedding.

* A `uint8_t` is a `Nat`; every store into a `uint8_t` object and every
  `uint8_t` parameter is reduced `% 256`, the C expression in between is
  computed on unbounded naturals (integer promotion to `int`, no overflow
  for the operators used here).
* The hardware effects are recorded as a list of `Event`s, oldest first:
  `commit v` for one `ShiftRegisterUpdate` pushing out the value `v`, and
  `delay ms` for one `sleep_ms(ms)`.
* Every operation takes the session and returns the session after the call
  together with the events it emitted.
-/

namespace HD44780

/-! ## Constants of `HD44780.c` -/

@[reducible] def HD44780_DELAY : Nat := 50
@[reducible] def HD44780_RSCOMMAND : Nat := 0
@[reducible] def HD44780_RSDATA : Nat := 16
@[reducible] def HD44780_PROCESSING_DELAY : Nat := 2

@[reducible] def HD44780_ENABLEHIGH0 : Nat := 32
@[reducible] def HD44780_ENABLEHIGH01 : Nat := 96
@[reducible] def HD44780_ENABLEHIGH02 : Nat := 160
@[reducible] def HD44780_ENABLEHIGH1 : Nat := 64
@[reducible] def HD44780_ENABLEHIGH12 : Nat := 192
@[reducible] def HD44780_ENABLEHIGH2 : Nat := 128
@[reducible] def HD44780_ENABLEHIGHALL : Nat := 224
@[reducible] def HD44780_ENABLELOW : Nat := 0

@[reducible] def HD44780_CLEARDISPLAY : Nat := 1
@[reducible] def HD44780_CURSORHOME : Nat := 2
@[reducible] def HD44780_ENTRYMODESET : Nat := 4
@[reducible] def HD44780_DISPLAYONOFFCONTROL : Nat := 8
@[reducible] def HD44780_CURSORDISPLAYSHIFT : Nat := 16
@[reducible] def HD44780_FUNCTIONSET : Nat := 32
@[reducible] def HD44780_SETCGRAMADDRESS : Nat := 64
@[reducible] def HD44780_SETDDRAMADDRESS : Nat := 128

@[reducible] def HD44780_NODISPLAYSHIFT : Nat := 0
@[reducible] def HD44780_DISPLAYON : Nat := 4
@[reducible] def HD44780_CURSORON : Nat := 2
@[reducible] def HD44780_CURSORBLINKON : Nat := 1

@[reducible] def HD44780_4BITINTERFACE : Nat := 0
@[reducible] def HD44780_8BITINTERFACE : Nat := 16
@[reducible] def HD44780_DUTY1LINE : Nat := 0
@[reducible] def HD44780_DUTY2LINES : Nat := 8
@[reducible] def HD44780_5X8DOTS : Nat := 0
@[reducible] def HD44780_5X10DOTS : Nat := 4

/-! ## Data model -/

/-- One observable hardware effect of the driver. -/
inductive Event where
  | commit (value : Nat)
  | delay (ms : Nat)
  deriving DecidableEq

/-- Modelled from the spec: the `ShiftRegister` struct of `ShiftRegister.c`,
which is not among the sources. The driver uses three of its members: the
settable 8-bit output value and the clock and latch delays. -/
structure ShiftRegister where
  OutputBuffer : Nat
  ClockDelayUS : Nat
  LatchDelayUS : Nat
  deriving DecidableEq

/-- The struct `HD44780Display`: the transport, the three configuration
bytes and the mask of active displays. -/
structure HD44780Display where
  Register : ShiftRegister
  FunctionSet : Nat
  DisplayOnOffControl : Nat
  EntryModeSet : Nat
  ActiveDisplays : Nat
  deriving DecidableEq

/-- Result of an operation: the session afterwards and the emitted events. -/
abbrev Outcome := HD44780Display × List Event

/-- Modelled from the spec: `ShiftRegisterUpdate` of `ShiftRegister.c`, which
is not among the sources. It is the commit operation of the transport: the
current output value is shifted out to the bus. -/
def ShiftRegisterUpdate (Register : ShiftRegister) : List Event :=
  [Event.commit Register.OutputBuffer]

/-- Modelled from the spec: `ShiftRegisterCreate` of `ShiftRegister.c`, which
is not among the sources. It hands out the transport; nothing is committed
by creating it. The output value and the delays a fresh register starts with
are not known and are left to the caller of the model. -/
def ShiftRegisterCreate (fresh : ShiftRegister) ( ClockGPIO DataOutGPIO LatchGPIO : Nat) :
    ShiftRegister :=
  { OutputBuffer := fresh.OutputBuffer % 256
    ClockDelayUS := fresh.ClockDelayUS
    LatchDelayUS := fresh.LatchDelayUS }

/-- The assignment `Display->Register->OutputBuffer = value` (a `uint8_t`
store). -/
def setOutputBuffer (Display : HD44780Display) (value : Nat) : HD44780Display :=
  { Display with Register := { Display.Register with OutputBuffer := value % 256 } }

/-- The expression `IsCommand ? HD44780_RSCOMMAND : HD44780_RSDATA`. -/
def registerSelect (IsCommand : Bool) : Nat :=
  if IsCommand then HD44780_RSCOMMAND else HD44780_RSDATA

/-! ## Operations -/

/-- The function `HD44780WriteNibble`: present the nibble with the enable bits of the
active displays high, then with all enable bits low. -/
def HD44780WriteNibble (Display : HD44780Display) (IsCommand : Bool) (Nibble : Nat) :
    Outcome :=
  let Nibble := ((Nibble % 256) &&& 15) % 256
  let d1 := setOutputBuffer Display
    (registerSelect IsCommand ||| Display.ActiveDisplays ||| Nibble)
  let t1 := ShiftRegisterUpdate d1.Register
  let d2 := setOutputBuffer d1
    (registerSelect IsCommand ||| HD44780_ENABLELOW ||| Nibble)
  let t2 := ShiftRegisterUpdate d2.Register
  (d2, t1 ++ t2)

/-- The function `HD44780WriteByte`: the four most significant bits first, then the four
least significant ones. -/
def HD44780WriteByte (Display : HD44780Display) (IsCommand : Bool) (Byte : Nat) :
    Outcome :=
  let Byte := Byte % 256
  let r1 := HD44780WriteNibble Display IsCommand (Byte >>> 4)
  let r2 := HD44780WriteNibble r1.1 IsCommand (Byte &&& 15)
  (r2.1, r1.2 ++ r2.2)

/-- The function `HD44780Write`: the loop `while (*Text)`, which writes `*Text`
as data and advances `Text`.
The list holds the bytes found at `Text` onwards; the end of the list stands
for the terminating zero byte. -/
def HD44780Write (Display : HD44780Display) : List Nat → Outcome
  | [] => (Display, [])
  | c :: Text =>
    if c % 256 = 0 then (Display, [])
    else
      let r1 := HD44780WriteByte Display false c
      let r2 := HD44780Write r1.1 Text
      (r2.1, r1.2 ++ r2.2)

/-- The function `HD44780Command`: write `Command|Parameters` as a command byte; clear
display and cursor home are followed by the processing delay. -/
def HD44780Command (Display : HD44780Display) (Command Parameters : Nat) : Outcome :=
  let Command := Command % 256
  let Parameters := Parameters % 256
  let r1 := HD44780WriteByte Display true (Command ||| Parameters)
  if Command = HD44780_CLEARDISPLAY ∨ Command = HD44780_CURSORHOME then
    (r1.1, r1.2 ++ [Event.delay HD44780_PROCESSING_DELAY])
  else
    r1

/-- The loop `for (counter = 0; counter < 3; counter++)` of `HD44780Reset`,
entered with the given value of `counter`. -/
def resetLoop (Display : HD44780Display) (counter : Nat) : Outcome :=
  if counter < 3 then
    let r1 := HD44780WriteNibble Display true
      ((HD44780_FUNCTIONSET ||| HD44780_8BITINTERFACE) >>> 4)
    let r2 := resetLoop r1.1 (counter + 1)
    (r2.1, r1.2 ++ r2.2)
  else (Display, [])
termination_by 3 - counter

/-- The function `HD44780Reset`: force the controllers into 4-bit mode, then configure
them from the session. -/
def HD44780Reset (Display : HD44780Display) : Outcome :=
  let r0 := resetLoop Display 0
  let r1 := HD44780WriteNibble r0.1 true
    ((HD44780_FUNCTIONSET ||| HD44780_4BITINTERFACE) >>> 4)
  let r2 := HD44780Command r1.1 HD44780_FUNCTIONSET r1.1.FunctionSet
  let r3 := HD44780Command r2.1 HD44780_DISPLAYONOFFCONTROL r2.1.DisplayOnOffControl
  let r4 := HD44780Command r3.1 HD44780_ENTRYMODESET r3.1.EntryModeSet
  let r5 := HD44780Command r4.1 HD44780_CLEARDISPLAY 0
  let r6 := HD44780Command r5.1 HD44780_CURSORHOME 0
  (r6.1, r0.2 ++ r1.2 ++ r2.2 ++ r3.2 ++ r4.2 ++ r5.2 ++ r6.2)

/-- The function `HD44780SetActiveDisplays`: a plain assignment of the mask. -/
def HD44780SetActiveDisplays (Display : HD44780Display) (ActiveDisplays : Nat) : Outcome :=
  ({ Display with ActiveDisplays := ActiveDisplays % 256 }, [])

/-- The function `HD44780Init`: create the session, address all displays for the reset,
then make display #0 the active one. `fresh` is the register handed out by
`ShiftRegisterCreate`. -/
def HD44780Init (fresh : ShiftRegister) ( ClockGPIO DataOutGPIO LatchGPIO : Nat)
    (FunctionSet DisplayOnOffControl EntryModeSet : Nat) : Outcome :=
  let reg := ShiftRegisterCreate fresh ClockGPIO DataOutGPIO LatchGPIO
  let reg := { reg with ClockDelayUS := HD44780_DELAY }
  let reg := { reg with LatchDelayUS := HD44780_DELAY }
  let d : HD44780Display :=
    { Register := reg
      FunctionSet := ((FunctionSet % 256) ||| HD44780_4BITINTERFACE) % 256
      DisplayOnOffControl := DisplayOnOffControl % 256
      EntryModeSet := EntryModeSet % 256
      ActiveDisplays := HD44780_ENABLEHIGHALL % 256 }
  let r := HD44780Reset d
  ({ r.1 with ActiveDisplays := HD44780_ENABLEHIGH0 % 256 }, r.2)

/-! ## Reading a trace -/

/-- The values of the transport commits of a trace, in order. -/
def commits : List Event → List Nat
  | [] => []
  | Event.commit v :: t => v :: commits t
  | Event.delay _ :: t => commits t

/-- The durations of the delays of a trace, in order. -/
def delays : List Event → List Nat
  | [] => []
  | Event.commit _ :: t => delays t
  | Event.delay ms :: t => ms :: delays t

/-- The nibble operations of a list of commits: consecutive pairs, each the
enable-high commit and the enable-low commit that follows it. -/
def nibbleOps : List Nat → List (Nat × Nat)
  | hi :: lo :: rest => (hi, lo) :: nibbleOps rest
  | _ => []

/-! ## A receiving controller

The observer of the round-trip property: a controller on display slot `i`
that watches the bus and latches a nibble at every falling edge of its
enable line. It is not part of the driver; it states what a display on that
slot takes from a trace. -/

/-- The enable bit of display slot `i`: `HD44780_ENABLEHIGH0 << i`. -/
def enableBit (i : Nat) : Nat := HD44780_ENABLEHIGH0 <<< i

/-- The nibbles latched by the controller on slot `i` while the bus goes from
the value `prev` through the given commits: at every commit that takes the
enable bit of the slot from high to low, the register-select bit and the low
four bits presented while the enable bit was high. -/
def latched (i : Nat) : Nat → List Nat → List (Bool × Nat)
  | _, [] => []
  | prev, c :: rest =>
    if prev &&& enableBit i ≠ 0 ∧ c &&& enableBit i = 0 then
      (decide (prev &&& HD44780_RSDATA ≠ 0), prev &&& 15) :: latched i c rest
    else latched i c rest

/-- Assemble latched nibbles pairwise, the first nibble of a pair as the high
half. The byte is flagged as data when both nibbles were. -/
def assemble : List (Bool × Nat) → List (Bool × Nat)
  | (r1, hi) :: (r2, lo) :: rest => (r1 && r2, (hi <<< 4) ||| lo) :: assemble rest
  | _ => []

/-- The bytes received by the controller on slot `i` from a trace, the bus
holding `start` before the first commit. -/
def decode (i : Nat) (start : Nat) (trace : List Event) : List (Bool × Nat) :=
  assemble (latched i start (commits trace))

/-- Every commit of the trace has its enable bits inside the mask `m`:
`(c & 224) & ~m = 0`, written without the complement. -/
def enableWithin (m : Nat) (trace : List Event) : Prop :=
  ∀ c ∈ commits trace, (c &&& 224) &&& m = c &&& 224

/-- The enable lines rest low: the output value of the transport has all
three enable bits clear. -/
def restsLow (Display : HD44780Display) : Prop :=
  Display.Register.OutputBuffer &&& 224 = 0

/-! ## Sequences of calls -/

/-- One call of the operational interface, with its arguments. -/
inductive Call where
  | setActiveDisplays (ActiveDisplays : Nat)
  | write (Text : List Nat)
  | command (Command Parameters : Nat)
  | reset
  deriving DecidableEq

/-- Perform one call on a session. -/
def perform (Display : HD44780Display) : Call → Outcome
  | Call.setActiveDisplays m => HD44780SetActiveDisplays Display m
  | Call.write Text => HD44780Write Display Text
  | Call.command c p => HD44780Command Display c p
  | Call.reset => HD44780Reset Display

/-- Perform a finite sequence of calls, one after the other, on a session. -/
def run (Display : HD44780Display) : List Call → Outcome
  | [] => (Display, [])
  | k :: rest =>
    let r1 := perform Display k
    let r2 := run r1.1 rest
    (r2.1, r1.2 ++ r2.2)

/-! ## Basic facts about the embedding -/

theorem and_fifteen_of_mod (v : Nat) : ((v % 256) &&& 15) % 256 = v &&& 15 := by
  have h := Nat.and_pow_two_sub_one_eq_mod (v % 256) 4
  have h2 := Nat.and_pow_two_sub_one_eq_mod v 4
  norm_num at h h2
  omega

theorem registerSelect_le (IsCommand : Bool) : registerSelect IsCommand < 32 := by
  cases IsCommand <;> decide

theorem rs_or_nibble_lt (IsCommand : Bool) (v : Nat) :
    registerSelect IsCommand ||| (v &&& 15) < 32 := by
  have h1 : registerSelect IsCommand < 2 ^ 5 := registerSelect_le IsCommand
  have h2 : v &&& 15 < 2 ^ 5 := Nat.and_lt_two_pow v (by decide)
  exact Nat.or_lt_two_pow h1 h2

theorem rs_or_nibble_mod (IsCommand : Bool) (v : Nat) :
    (registerSelect IsCommand ||| HD44780_ENABLELOW ||| (v &&& 15)) % 256 =
      registerSelect IsCommand ||| (v &&& 15) := by
  have h := rs_or_nibble_lt IsCommand v
  simp only [HD44780_ENABLELOW, Nat.or_zero]
  omega

theorem setOutputBuffer_twice (Display : HD44780Display) (a b : Nat) :
    setOutputBuffer (setOutputBuffer Display a) b = setOutputBuffer Display b := rfl

@[simp] theorem setOutputBuffer_ActiveDisplays (Display : HD44780Display) (a : Nat) :
    (setOutputBuffer Display a).ActiveDisplays = Display.ActiveDisplays := rfl

@[simp] theorem setOutputBuffer_FunctionSet (Display : HD44780Display) (a : Nat) :
    (setOutputBuffer Display a).FunctionSet = Display.FunctionSet := rfl

@[simp] theorem setOutputBuffer_DisplayOnOffControl (Display : HD44780Display) (a : Nat) :
    (setOutputBuffer Display a).DisplayOnOffControl = Display.DisplayOnOffControl := rfl

@[simp] theorem setOutputBuffer_EntryModeSet (Display : HD44780Display) (a : Nat) :
    (setOutputBuffer Display a).EntryModeSet = Display.EntryModeSet := rfl

@[simp] theorem setOutputBuffer_ClockDelayUS (Display : HD44780Display) (a : Nat) :
    (setOutputBuffer Display a).Register.ClockDelayUS = Display.Register.ClockDelayUS := rfl

@[simp] theorem setOutputBuffer_LatchDelayUS (Display : HD44780Display) (a : Nat) :
    (setOutputBuffer Display a).Register.LatchDelayUS = Display.Register.LatchDelayUS := rfl

@[simp] theorem setOutputBuffer_OutputBuffer (Display : HD44780Display) (a : Nat) :
    (setOutputBuffer Display a).Register.OutputBuffer = a % 256 := rfl

/-- The session after one nibble: only the output value has changed, and it
is the enable-low byte. -/
theorem writeNibble_fst (Display : HD44780Display) (IsCommand : Bool) (v : Nat) :
    (HD44780WriteNibble Display IsCommand v).1 =
      setOutputBuffer Display (registerSelect IsCommand ||| (v &&& 15)) := by
  have h := rs_or_nibble_lt IsCommand v
  simp only [HD44780WriteNibble, and_fifteen_of_mod, setOutputBuffer_twice,
    HD44780_ENABLELOW, Nat.or_zero]

/-- The events of one nibble: the enable-high byte, then the enable-low byte. -/
theorem writeNibble_snd (Display : HD44780Display) (IsCommand : Bool) (v : Nat) :
    (HD44780WriteNibble Display IsCommand v).2 =
      [Event.commit ((registerSelect IsCommand ||| Display.ActiveDisplays ||| (v &&& 15)) % 256),
       Event.commit (registerSelect IsCommand ||| (v &&& 15))] := by
  simp only [HD44780WriteNibble, and_fifteen_of_mod, ShiftRegisterUpdate,
    setOutputBuffer_OutputBuffer, rs_or_nibble_mod, List.singleton_append]

/-- The events of one nibble depend on the session through its mask only. -/
theorem writeNibble_snd_congr (D1 D2 : HD44780Display) (IsCommand : Bool) (v : Nat)
    (h : D1.ActiveDisplays = D2.ActiveDisplays) :
    (HD44780WriteNibble D1 IsCommand v).2 = (HD44780WriteNibble D2 IsCommand v).2 := by
  rw [writeNibble_snd, writeNibble_snd, h]

theorem and_fifteen (x : Nat) : x &&& 15 = x % 16 := Nat.and_pow_two_sub_one_eq_mod x 4

theorem shiftRight_four (x : Nat) : x >>> 4 = x / 16 := Nat.shiftRight_eq_div_pow x 4

theorem high_nibble_of_mod (b : Nat) : ((b % 256) >>> 4) &&& 15 = (b >>> 4) &&& 15 := by
  simp only [and_fifteen, shiftRight_four]; omega

theorem low_nibble_of_mod (b : Nat) : ((b % 256) &&& 15) &&& 15 = b &&& 15 := by
  simp only [and_fifteen]; omega

theorem low_nibble_mod (b : Nat) : (b % 256) &&& 15 = b &&& 15 := by
  simp only [and_fifteen]; omega

theorem low_nibble_idem (b : Nat) : (b &&& 15) &&& 15 = b &&& 15 := by
  simp only [and_fifteen]; omega

theorem high_nibble_of_byte (b : Nat) (h : b < 256) : (b >>> 4) &&& 15 = b >>> 4 := by
  simp only [and_fifteen, shiftRight_four]; omega

theorem or_mod_byte (a b : Nat) : ((a % 256) ||| (b % 256)) % 256 = (a ||| b) % 256 := by
  apply Nat.eq_of_testBit_eq
  intro i
  have e : (256 : Nat) = 2 ^ 8 := by norm_num
  simp only [e, Nat.testBit_mod_two_pow, Nat.testBit_or]
  cases decide (i < 8) <;> simp

/-- The events of one byte: the nibble `Byte >> 4`, then the nibble
`Byte & 15`, both under the mask of the session the call started with. -/
theorem writeByte_snd (Display : HD44780Display) (IsCommand : Bool) (b : Nat) :
    (HD44780WriteByte Display IsCommand b).2 =
      (HD44780WriteNibble Display IsCommand (b >>> 4)).2 ++
        (HD44780WriteNibble Display IsCommand (b &&& 15)).2 := by
  simp only [HD44780WriteByte, writeNibble_snd, writeNibble_fst,
    setOutputBuffer_ActiveDisplays, high_nibble_of_mod, low_nibble_mod, low_nibble_idem]

/-- The session after one byte: only the output value has changed. -/
theorem writeByte_fst (Display : HD44780Display) (IsCommand : Bool) (b : Nat) :
    (HD44780WriteByte Display IsCommand b).1 =
      setOutputBuffer Display (registerSelect IsCommand ||| (b &&& 15)) := by
  simp only [HD44780WriteByte, writeNibble_fst, setOutputBuffer_twice, low_nibble_of_mod]

/-- The events of one byte depend on the byte through its value `% 256` only. -/
theorem writeByte_snd_mod (Display : HD44780Display) (IsCommand : Bool) (b : Nat) :
    (HD44780WriteByte Display IsCommand (b % 256)).2 =
      (HD44780WriteByte Display IsCommand b).2 := by
  simp only [HD44780WriteByte, Nat.mod_mod]

/-- The events of one byte depend on the session through its mask only. -/
theorem writeByte_snd_congr (D1 D2 : HD44780Display) (IsCommand : Bool) (b : Nat)
    (h : D1.ActiveDisplays = D2.ActiveDisplays) :
    (HD44780WriteByte D1 IsCommand b).2 = (HD44780WriteByte D2 IsCommand b).2 := by
  rw [writeByte_snd, writeByte_snd, writeNibble_snd_congr D1 D2 _ _ h,
    writeNibble_snd_congr D1 D2 _ _ h]

/-- The events of one byte, written out. -/
theorem writeByte_snd_explicit (Display : HD44780Display) (IsCommand : Bool) (b : Nat) :
    (HD44780WriteByte Display IsCommand b).2 =
      [Event.commit
          ((registerSelect IsCommand ||| Display.ActiveDisplays ||| ((b >>> 4) &&& 15)) % 256),
       Event.commit (registerSelect IsCommand ||| ((b >>> 4) &&& 15)),
       Event.commit
          ((registerSelect IsCommand ||| Display.ActiveDisplays ||| (b &&& 15)) % 256),
       Event.commit (registerSelect IsCommand ||| (b &&& 15))] := by
  simp only [writeByte_snd, writeNibble_snd, low_nibble_idem, List.cons_append,
    List.nil_append]

theorem commits_append (s t : List Event) : commits (s ++ t) = commits s ++ commits t := by
  induction s with
  | nil => rfl
  | cons e s ih => cases e <;> simp [commits, ih]

theorem delays_append (s t : List Event) : delays (s ++ t) = delays s ++ delays t := by
  induction s with
  | nil => rfl
  | cons e s ih => cases e <;> simp [delays, ih]

theorem commits_writeByte_length (Display : HD44780Display) (IsCommand : Bool) (b : Nat) :
    (commits (HD44780WriteByte Display IsCommand b).2).length = 4 := by
  rw [writeByte_snd_explicit]; rfl

theorem delays_writeByte (Display : HD44780Display) (IsCommand : Bool) (b : Nat) :
    delays (HD44780WriteByte Display IsCommand b).2 = [] := by
  rw [writeByte_snd_explicit]; rfl

/-- The text loop stops at the first zero byte: its events are those of the
bytes in front of it, each written as data under the mask of the session the
call started with. -/
theorem write_snd_takeWhile (Display : HD44780Display) (Text : List Nat) :
    (HD44780Write Display Text).2 =
      (Text.takeWhile (fun c => decide (c % 256 ≠ 0))).flatMap
        (fun c => (HD44780WriteByte Display false c).2) := by
  induction Text generalizing Display with
  | nil => rfl
  | cons c Text ih =>
    by_cases hc : c % 256 = 0
    · simp [HD44780Write, hc]
    · simp only [HD44780Write, hc, if_false, ne_eq, not_false_eq_true, decide_True,
        List.takeWhile_cons_of_pos, List.flatMap_cons]
      rw [ih]
      have hmask : (HD44780WriteByte Display false c).1.ActiveDisplays =
          Display.ActiveDisplays := by rw [writeByte_fst, setOutputBuffer_ActiveDisplays]
      have hrest : ∀ x, (HD44780WriteByte (HD44780WriteByte Display false c).1 false x).2 =
          (HD44780WriteByte Display false x).2 :=
        fun x => writeByte_snd_congr _ _ false x hmask
      simp only [hrest]

/-- The session after the text loop has the mask and the configuration it
started with. -/
theorem write_fst_fields (Display : HD44780Display) (Text : List Nat) :
    (HD44780Write Display Text).1.ActiveDisplays = Display.ActiveDisplays ∧
      (HD44780Write Display Text).1.FunctionSet = Display.FunctionSet ∧
      (HD44780Write Display Text).1.DisplayOnOffControl = Display.DisplayOnOffControl ∧
      (HD44780Write Display Text).1.EntryModeSet = Display.EntryModeSet := by
  induction Text generalizing Display with
  | nil => exact ⟨rfl, rfl, rfl, rfl⟩
  | cons c Text ih =>
    by_cases hc : c % 256 = 0
    · simp [HD44780Write, hc]
    · simp only [HD44780Write, hc, if_false]
      have h := ih (HD44780WriteByte Display false c).1
      rw [writeByte_fst] at h ⊢
      simpa using h

theorem takeWhile_nonzero (Text : List Nat) (h : ∀ c ∈ Text, c % 256 ≠ 0) :
    Text.takeWhile (fun c => decide (c % 256 ≠ 0)) = Text := by
  induction Text with
  | nil => rfl
  | cons c Text ih =>
    have hc : c % 256 ≠ 0 := h c (List.mem_cons_self c Text)
    have ht : ∀ x ∈ Text, x % 256 ≠ 0 := fun x hx => h x (List.mem_cons_of_mem c hx)
    rw [List.takeWhile_cons_of_pos (by simpa using hc), ih ht]

theorem commits_flatMap_writeByte_length (Display : HD44780Display) (IsCommand : Bool)
    (Text : List Nat) :
    (commits (Text.flatMap (fun c => (HD44780WriteByte Display IsCommand c).2))).length =
      4 * Text.length := by
  induction Text with
  | nil => rfl
  | cons c Text ih =>
    simp only [List.flatMap_cons, commits_append, List.length_append, ih,
      commits_writeByte_length, List.length_cons]
    omega

theorem delays_flatMap_writeByte (Display : HD44780Display) (IsCommand : Bool)
    (Text : List Nat) :
    delays (Text.flatMap (fun c => (HD44780WriteByte Display IsCommand c).2)) = [] := by
  induction Text with
  | nil => rfl
  | cons c Text ih =>
    simp only [List.flatMap_cons, delays_append, ih, delays_writeByte, List.append_nil]

/-- The events of a command: the command byte `Command|Parameters`, then the
processing delay when the opcode is clear display or cursor home. -/
theorem command_snd (Display : HD44780Display) (Command Parameters : Nat) :
    (HD44780Command Display Command Parameters).2 =
      (HD44780WriteByte Display true (Command ||| Parameters)).2 ++
        (if Command % 256 = 1 ∨ Command % 256 = 2 then [Event.delay 2] else []) := by
  have hb : (HD44780WriteByte Display true (Command % 256 ||| Parameters % 256)).2 =
      (HD44780WriteByte Display true (Command ||| Parameters)).2 := by
    rw [← writeByte_snd_mod, or_mod_byte, writeByte_snd_mod]
  by_cases h : Command % 256 = 1 ∨ Command % 256 = 2
  · simp only [HD44780Command, h, if_true, hb]
  · simp only [HD44780Command, h, if_false, hb, List.append_nil]

/-- The session after a command: only the output value has changed. -/
theorem command_fst (Display : HD44780Display) (Command Parameters : Nat) :
    (HD44780Command Display Command Parameters).1 =
      setOutputBuffer Display
        (registerSelect true ||| ((Command ||| Parameters) &&& 15)) := by
  have hb : (Command % 256 ||| Parameters % 256) &&& 15 = (Command ||| Parameters) &&& 15 := by
    rw [← low_nibble_mod, or_mod_byte, low_nibble_mod]
  by_cases h : Command % 256 = 1 ∨ Command % 256 = 2
  · simp only [HD44780Command, h, if_true, writeByte_fst, hb]
  · simp only [HD44780Command, h, if_false, writeByte_fst, hb]

/-- The events of a command depend on the session through its mask only. -/
theorem command_snd_congr (D1 D2 : HD44780Display) (Command Parameters : Nat)
    (h : D1.ActiveDisplays = D2.ActiveDisplays) :
    (HD44780Command D1 Command Parameters).2 = (HD44780Command D2 Command Parameters).2 := by
  rw [command_snd, command_snd, writeByte_snd_congr D1 D2 _ _ h]

@[simp] theorem writeNibble_snd_setOutputBuffer (Display : HD44780Display) (a : Nat)
    (IsCommand : Bool) (v : Nat) :
    (HD44780WriteNibble (setOutputBuffer Display a) IsCommand v).2 =
      (HD44780WriteNibble Display IsCommand v).2 :=
  writeNibble_snd_congr _ _ _ _ rfl

@[simp] theorem command_snd_setOutputBuffer (Display : HD44780Display) (a : Nat)
    (Command Parameters : Nat) :
    (HD44780Command (setOutputBuffer Display a) Command Parameters).2 =
      (HD44780Command Display Command Parameters).2 :=
  command_snd_congr _ _ _ _ rfl

theorem resetLoop_stop (Display : HD44780Display) : resetLoop Display 3 = (Display, []) := by
  rw [resetLoop]; rfl

theorem resetLoop_step (Display : HD44780Display) (counter : Nat) (h : counter < 3) :
    resetLoop Display counter =
      ((resetLoop (HD44780WriteNibble Display true 3).1 (counter + 1)).1,
        (HD44780WriteNibble Display true 3).2 ++
          (resetLoop (HD44780WriteNibble Display true 3).1 (counter + 1)).2) := by
  conv_lhs => rw [resetLoop]
  simp only [h, if_true]
  rfl

/-- The loop of the reset runs its body three times. -/
theorem resetLoop_zero (Display : HD44780Display) :
    resetLoop Display 0 =
      (setOutputBuffer Display 3,
        (HD44780WriteNibble Display true 3).2 ++ ((HD44780WriteNibble Display true 3).2 ++
          (HD44780WriteNibble Display true 3).2)) := by
  rw [resetLoop_step _ 0 (by decide), resetLoop_step _ 1 (by decide),
    resetLoop_step _ 2 (by decide), resetLoop_stop]
  simp only [writeNibble_fst, setOutputBuffer_twice, writeNibble_snd_setOutputBuffer,
    List.append_nil]
  rfl

/-- The events of the reset: four single nibbles, then five commands. -/
theorem reset_snd (Display : HD44780Display) :
    (HD44780Reset Display).2 =
      (HD44780WriteNibble Display true 3).2 ++ (HD44780WriteNibble Display true 3).2 ++
        (HD44780WriteNibble Display true 3).2 ++ (HD44780WriteNibble Display true 2).2 ++
        (HD44780Command Display HD44780_FUNCTIONSET Display.FunctionSet).2 ++
        (HD44780Command Display HD44780_DISPLAYONOFFCONTROL Display.DisplayOnOffControl).2 ++
        (HD44780Command Display HD44780_ENTRYMODESET Display.EntryModeSet).2 ++
        (HD44780Command Display HD44780_CLEARDISPLAY 0).2 ++
        (HD44780Command Display HD44780_CURSORHOME 0).2 := by
  have h2 : (HD44780_FUNCTIONSET ||| HD44780_4BITINTERFACE) >>> 4 = 2 := by decide
  simp only [HD44780Reset, resetLoop_zero, h2, writeNibble_fst, command_fst,
    setOutputBuffer_twice, writeNibble_snd_setOutputBuffer, command_snd_setOutputBuffer,
    setOutputBuffer_FunctionSet, setOutputBuffer_DisplayOnOffControl,
    setOutputBuffer_EntryModeSet, List.append_assoc]

/-- The session after the reset: only the output value has changed; it is
the enable-low byte of the low nibble of cursor home. -/
theorem reset_fst (Display : HD44780Display) :
    (HD44780Reset Display).1 = setOutputBuffer Display 2 := by
  simp only [HD44780Reset, resetLoop_zero, writeNibble_fst, command_fst,
    setOutputBuffer_twice]
  rfl

theorem or_and_enable (x : Nat) : (224 ||| x) &&& 224 = 224 := by
  apply Nat.eq_of_testBit_eq
  intro i
  simp only [Nat.testBit_and, Nat.testBit_or]
  cases Nat.testBit 224 i <;> simp

theorem nibble_and_enable (x : Nat) (h : x < 16) : x &&& 224 = 0 := by
  interval_cases x <;> rfl

/-- The events of a command byte written under the mask of all displays. -/
theorem commits_writeByte_all (Display : HD44780Display) (b : Nat)
    (hm : Display.ActiveDisplays = 224) (hb : b < 256) :
    commits (HD44780WriteByte Display true b).2 =
      [224 ||| (b >>> 4), b >>> 4, 224 ||| (b &&& 15), b &&& 15] := by
  have h1 : b >>> 4 < 2 ^ 8 := by rw [shiftRight_four]; omega
  have h2 : b &&& 15 < 2 ^ 8 := Nat.and_lt_two_pow _ (by decide)
  have h3 : 224 ||| (b >>> 4) < 256 := Nat.or_lt_two_pow (n := 8) (by decide) h1
  have h4 : 224 ||| (b &&& 15) < 256 := Nat.or_lt_two_pow (n := 8) (by decide) h2
  rw [writeByte_snd_explicit, high_nibble_of_byte _ hb, hm]
  simp only [registerSelect, if_true, HD44780_RSCOMMAND, Nat.zero_or, commits,
    Nat.mod_eq_of_lt h3, Nat.mod_eq_of_lt h4]

theorem mask_and_low (m : Nat) (hm : m &&& 224 = m) (k : Nat) (hk : k &&& 224 = 0) :
    m &&& k = 0 := by
  rw [← hm, Nat.and_assoc, Nat.and_comm 224 k, hk, Nat.and_zero]

theorem mask_lt (m : Nat) (hm : m &&& 224 = m) : m < 256 := by
  have h : m &&& 224 ≤ 224 := Nat.and_le_right
  omega

theorem registerSelect_and_fifteen (IsCommand : Bool) : registerSelect IsCommand &&& 15 = 0 := by
  cases IsCommand <;> rfl

theorem registerSelect_and_enable (IsCommand : Bool) :
    registerSelect IsCommand &&& 224 = 0 := by
  cases IsCommand <;> rfl

theorem low_nibble_and_enable (v : Nat) : (v &&& 15) &&& 224 = 0 := by
  rw [Nat.and_assoc, show (15 : Nat) &&& 224 = 0 from rfl, Nat.and_zero]

theorem low_nibble_and_select (v : Nat) : (v &&& 15) &&& 16 = 0 := by
  rw [Nat.and_assoc, show (15 : Nat) &&& 16 = 0 from rfl, Nat.and_zero]

/-- The enable-low byte carries the nibble in its data bits. -/
theorem enableLow_data (IsCommand : Bool) (v : Nat) :
    (registerSelect IsCommand ||| (v &&& 15)) &&& 15 = v &&& 15 := by
  rw [Nat.and_distrib_right, registerSelect_and_fifteen, low_nibble_idem, Nat.zero_or]

/-- The enable-low byte has all three enable bits clear. -/
theorem enableLow_enable (IsCommand : Bool) (v : Nat) :
    (registerSelect IsCommand ||| (v &&& 15)) &&& 224 = 0 := by
  rw [Nat.and_distrib_right, registerSelect_and_enable, low_nibble_and_enable]
  rfl

/-- Under a mask of enable bits the enable-high byte carries the nibble in
its data bits. -/
theorem enableHigh_data (IsCommand : Bool) (m v : Nat) (hm : m &&& 224 = m) :
    (registerSelect IsCommand ||| m ||| (v &&& 15)) &&& 15 = v &&& 15 := by
  rw [Nat.and_distrib_right, Nat.and_distrib_right, registerSelect_and_fifteen,
    mask_and_low m hm 15 (by decide), low_nibble_idem]
  simp

/-- Under a mask of enable bits the enable bits of the enable-high byte are
the mask. -/
theorem enableHigh_enable (IsCommand : Bool) (m v : Nat) (hm : m &&& 224 = m) :
    (registerSelect IsCommand ||| m ||| (v &&& 15)) &&& 224 = m := by
  rw [Nat.and_distrib_right, Nat.and_distrib_right, registerSelect_and_enable, hm,
    low_nibble_and_enable]
  simp

/-- Under a mask of enable bits both bytes of a nibble have the same
register-select bit. -/
theorem enableHigh_select (IsCommand : Bool) (m v : Nat) (hm : m &&& 224 = m) :
    (registerSelect IsCommand ||| m ||| (v &&& 15)) &&& 16 =
      (registerSelect IsCommand ||| (v &&& 15)) &&& 16 := by
  rw [Nat.and_distrib_right, Nat.and_distrib_right, mask_and_low m hm 16 (by decide),
    Nat.and_distrib_right]
  simp

/-- Under a mask of enable bits the two bytes of a nibble differ in enable
bits only. -/
theorem xor_within_enable (rs m n : Nat) (hm : m &&& 224 = m) :
    ((rs ||| m ||| n) ^^^ (rs ||| n)) &&& 224 = (rs ||| m ||| n) ^^^ (rs ||| n) := by
  apply Nat.eq_of_testBit_eq
  intro i
  have h := congrArg (fun x => Nat.testBit x i) hm
  simp only [Nat.testBit_and, Nat.testBit_or, Nat.testBit_xor] at h ⊢
  cases h1 : rs.testBit i <;> cases h2 : m.testBit i <;> cases h3 : n.testBit i <;>
    cases h4 : Nat.testBit 224 i <;> simp_all

/-! ## Properties of the driver -/

/-- C1: for every session whose active-display mask `m` is an 8-bit value,
every register-select flag and every value `v`, `HD44780WriteNibble` emits
exactly two events, both transport commits: first `rs | m | (v & 15)`, then
`rs | (v & 15)`, with `rs = 0` for a command and `rs = 16` for data. It emits
no delay and leaves every session field as it was. -/
theorem writeNibble_two_commits (Display : HD44780Display) (IsCommand : Bool) (v : Nat)
    (hm : Display.ActiveDisplays < 256) :
    (HD44780WriteNibble Display IsCommand v).2 =
        [Event.commit ((if IsCommand then 0 else 16) ||| Display.ActiveDisplays ||| (v &&& 15)),
         Event.commit ((if IsCommand then 0 else 16) ||| (v &&& 15))] ∧
      delays (HD44780WriteNibble Display IsCommand v).2 = [] ∧
      (HD44780WriteNibble Display IsCommand v).1.ActiveDisplays = Display.ActiveDisplays ∧
      (HD44780WriteNibble Display IsCommand v).1.FunctionSet = Display.FunctionSet ∧
      (HD44780WriteNibble Display IsCommand v).1.DisplayOnOffControl =
        Display.DisplayOnOffControl ∧
      (HD44780WriteNibble Display IsCommand v).1.EntryModeSet = Display.EntryModeSet ∧
      (HD44780WriteNibble Display IsCommand v).1.Register.ClockDelayUS =
        Display.Register.ClockDelayUS ∧
      (HD44780WriteNibble Display IsCommand v).1.Register.LatchDelayUS =
        Display.Register.LatchDelayUS := by
  have hrs : registerSelect IsCommand = if IsCommand then 0 else 16 := rfl
  have h1 : v &&& 15 < 2 ^ 8 := Nat.and_lt_two_pow v (by decide)
  have h2 : registerSelect IsCommand < 2 ^ 8 :=
    Nat.lt_trans (registerSelect_le IsCommand) (by decide)
  have h3 : registerSelect IsCommand ||| Display.ActiveDisplays ||| (v &&& 15) < 256 :=
    Nat.or_lt_two_pow (n := 8) (Nat.or_lt_two_pow h2 hm) h1
  rw [writeNibble_snd, writeNibble_fst, Nat.mod_eq_of_lt h3, ← hrs]
  simp [delays]

/-- C1, at a concrete input: slot 1 active, data nibble `0x48 & 15 = 8`. -/
theorem writeNibble_two_commits_witness :
    (64 : Nat) < 256 ∧
      (HD44780WriteNibble ⟨⟨0, 50, 50⟩, 8, 4, 0, 64⟩ false 0x48).2 =
        [Event.commit 0x58, Event.commit 0x18] :=
  ⟨by decide, (writeNibble_two_commits ⟨⟨0, 50, 50⟩, 8, 4, 0, 64⟩ false 0x48 (by decide)).1⟩

/-- C2: for every byte `b`, every register-select flag and every session,
the events of `HD44780WriteByte` are those of `HD44780WriteNibble` for
`b >> 4` followed by those of `HD44780WriteNibble` for `b & 15`, both with
the same flag and under the same mask: two nibble operations, four commits
and nothing else. -/
theorem writeByte_high_then_low (Display : HD44780Display) (IsCommand : Bool) (b : Nat) :
    (HD44780WriteByte Display IsCommand b).2 =
        (HD44780WriteNibble Display IsCommand (b >>> 4)).2 ++
          (HD44780WriteNibble Display IsCommand (b &&& 15)).2 ∧
      (HD44780WriteNibble Display IsCommand (b >>> 4)).1.ActiveDisplays =
        Display.ActiveDisplays ∧
      (HD44780WriteByte Display IsCommand b).2 =
        (HD44780WriteNibble Display IsCommand (b >>> 4)).2 ++
          (HD44780WriteNibble (HD44780WriteNibble Display IsCommand (b >>> 4)).1
            IsCommand (b &&& 15)).2 ∧
      (HD44780WriteNibble Display IsCommand (b >>> 4)).2.length = 2 ∧
      (HD44780WriteNibble Display IsCommand (b &&& 15)).2.length = 2 ∧
      (HD44780WriteByte Display IsCommand b).2.length = 4 ∧
      (commits (HD44780WriteByte Display IsCommand b).2).length = 4 := by
  have hmask : (HD44780WriteNibble Display IsCommand (b >>> 4)).1.ActiveDisplays =
      Display.ActiveDisplays := by rw [writeNibble_fst]; rfl
  refine ⟨writeByte_snd Display IsCommand b, hmask, ?_, ?_, ?_, ?_,
    commits_writeByte_length Display IsCommand b⟩
  · rw [writeByte_snd, writeNibble_snd_congr _ Display IsCommand (b &&& 15) hmask]
  · rw [writeNibble_snd]; rfl
  · rw [writeNibble_snd]; rfl
  · rw [writeByte_snd_explicit]; rfl

/-- C3, as stated, fails on a text with a zero byte in it: for the bytes
`0x41, 0x00, 0x42` only the first byte is written (four commits), not the
concatenation over all three bytes (twelve commits). -/
theorem write_stops_at_zero_byte :
    (HD44780Write ⟨⟨0, 50, 50⟩, 8, 4, 0, 32⟩ [0x41, 0x00, 0x42]).2 ≠
        [0x41, 0x00, 0x42].flatMap
          (fun c => (HD44780WriteByte ⟨⟨0, 50, 50⟩, 8, 4, 0, 32⟩ false c).2) ∧
      (HD44780Write ⟨⟨0, 50, 50⟩, 8, 4, 0, 32⟩ [0x41, 0x00, 0x42]).2 =
        (HD44780WriteByte ⟨⟨0, 50, 50⟩, 8, 4, 0, 32⟩ false 0x41).2 ∧
      (commits (HD44780Write ⟨⟨0, 50, 50⟩, 8, 4, 0, 32⟩ [0x41, 0x00, 0x42]).2).length = 4 := by
  decide

/-- C3, amended: for every text whose bytes are all non-zero (the bytes in
front of the terminating zero byte), `HD44780Write` emits exactly the
concatenation, in input order, of the events of `HD44780WriteByte` with
`IsCommand = false` for each byte: `4n` commits and no delay. For the empty
text it emits nothing and returns the session as it was. -/
theorem write_concat_of_nonzero (Display : HD44780Display) (Text : List Nat)
    (h : ∀ c ∈ Text, c % 256 ≠ 0) :
    (HD44780Write Display Text).2 =
        Text.flatMap (fun c => (HD44780WriteByte Display false c).2) ∧
      (HD44780Write Display Text).2.length = 4 * Text.length ∧
      (commits (HD44780Write Display Text).2).length = 4 * Text.length ∧
      delays (HD44780Write Display Text).2 = [] ∧
      HD44780Write Display [] = (Display, []) := by
  have ht : (HD44780Write Display Text).2 =
      Text.flatMap (fun c => (HD44780WriteByte Display false c).2) := by
    rw [write_snd_takeWhile, takeWhile_nonzero Text h]
  refine ⟨ht, ?_, ?_, ?_, rfl⟩
  · rw [ht]
    clear h ht
    induction Text with
    | nil => rfl
    | cons c Text ih =>
      have hlen : (HD44780WriteByte Display false c).2.length = 4 := by
        rw [writeByte_snd_explicit]; rfl
      rw [List.flatMap_cons, List.length_append, ih, hlen, List.length_cons]
      omega
  · rw [ht]; exact commits_flatMap_writeByte_length Display false Text
  · rw [ht]; exact delays_flatMap_writeByte Display false Text

/-- C3, amended, at a concrete input: the text "Hi" under slot 1. -/
theorem write_concat_of_nonzero_witness :
    (∀ c ∈ [0x48, 0x69], c % 256 ≠ 0) ∧
      (HD44780Write ⟨⟨0, 50, 50⟩, 8, 4, 0, 64⟩ [0x48, 0x69]).2 =
        [0x48, 0x69].flatMap
          (fun c => (HD44780WriteByte ⟨⟨0, 50, 50⟩, 8, 4, 0, 64⟩ false c).2) :=
  ⟨by decide, (write_concat_of_nonzero ⟨⟨0, 50, 50⟩, 8, 4, 0, 64⟩ [0x48, 0x69] (by decide)).1⟩

/-- C4: for every session with an 8-bit mask and every opcode and parameter
byte, the transport commits of `HD44780Command` are exactly those of
`HD44780WriteByte` with `IsCommand = true` for the byte `opcode | parameters`:
four commits with register-select contribution 0, the high nibble of the byte
(enable high, enable low) and then its low nibble (enable high, enable low). -/
theorem command_commits (Display : HD44780Display) (Command Parameters : Nat)
    (hm : Display.ActiveDisplays < 256) (hc : Command < 256) (hp : Parameters < 256) :
    commits (HD44780Command Display Command Parameters).2 =
        commits (HD44780WriteByte Display true (Command ||| Parameters)).2 ∧
      commits (HD44780Command Display Command Parameters).2 =
        [0 ||| Display.ActiveDisplays ||| ((Command ||| Parameters) >>> 4),
         0 ||| ((Command ||| Parameters) >>> 4),
         0 ||| Display.ActiveDisplays ||| ((Command ||| Parameters) &&& 15),
         0 ||| ((Command ||| Parameters) &&& 15)] := by
  have hb : Command ||| Parameters < 256 := Nat.or_lt_two_pow (n := 8) hc hp
  have h1 : (Command ||| Parameters) >>> 4 < 2 ^ 8 := by
    rw [shiftRight_four]; omega
  have h2 : (Command ||| Parameters) &&& 15 < 2 ^ 8 := Nat.and_lt_two_pow _ (by decide)
  have h3 : Display.ActiveDisplays ||| ((Command ||| Parameters) >>> 4) < 256 :=
    Nat.or_lt_two_pow (n := 8) hm h1
  have h4 : Display.ActiveDisplays ||| ((Command ||| Parameters) &&& 15) < 256 :=
    Nat.or_lt_two_pow (n := 8) hm h2
  have hc1 : commits (HD44780Command Display Command Parameters).2 =
      commits (HD44780WriteByte Display true (Command ||| Parameters)).2 := by
    rw [command_snd, commits_append]
    split <;> simp [commits]
  refine ⟨hc1, ?_⟩
  rw [hc1, writeByte_snd_explicit, high_nibble_of_byte _ hb]
  simp only [registerSelect, if_true, HD44780_RSCOMMAND, Nat.zero_or, commits,
    Nat.mod_eq_of_lt h3, Nat.mod_eq_of_lt h4]

/-- C4, at a concrete input: the function-set command `0x28` under the mask
of all displays. -/
theorem command_commits_witness :
    (224 : Nat) < 256 ∧ (32 : Nat) < 256 ∧ (8 : Nat) < 256 ∧
      commits (HD44780Command ⟨⟨0, 50, 50⟩, 8, 4, 0, 224⟩ 32 8).2 = [0xE2, 0x02, 0xE8, 0x08] :=
  ⟨by decide, by decide, by decide,
    (command_commits ⟨⟨0, 50, 50⟩, 8, 4, 0, 224⟩ 32 8 (by decide) (by decide) (by decide)).2⟩

/-- C5: for every session, every opcode byte and every parameter,
`HD44780Command` emits the processing delay of 2 ms, after the events of its
byte write, if and only if the opcode is clear display (1) or cursor home
(2); for every other opcode it emits no delay. Two consecutive calls with
clear display and parameter 0 emit byte, delay, byte, delay. -/
theorem command_delay_iff (Display : HD44780Display) (Command Parameters : Nat)
    (hc : Command < 256) :
    (HD44780Command Display Command Parameters).2 =
        (HD44780WriteByte Display true (Command ||| Parameters)).2 ++
          (if Command = HD44780_CLEARDISPLAY ∨ Command = HD44780_CURSORHOME
            then [Event.delay HD44780_PROCESSING_DELAY] else []) ∧
      (delays (HD44780Command Display Command Parameters).2 = [2] ↔
        (Command = HD44780_CLEARDISPLAY ∨ Command = HD44780_CURSORHOME)) ∧
      (¬ (Command = HD44780_CLEARDISPLAY ∨ Command = HD44780_CURSORHOME) →
        delays (HD44780Command Display Command Parameters).2 = []) ∧
      (commits (HD44780WriteByte Display true (Command ||| Parameters)).2).length = 4 ∧
      (HD44780Command Display HD44780_CLEARDISPLAY 0).2 ++
          (HD44780Command (HD44780Command Display HD44780_CLEARDISPLAY 0).1
            HD44780_CLEARDISPLAY 0).2 =
        (HD44780WriteByte Display true 1).2 ++ [Event.delay 2] ++
          ((HD44780WriteByte Display true 1).2 ++ [Event.delay 2]) := by
  have hmod : Command % 256 = Command := Nat.mod_eq_of_lt hc
  have htrace := command_snd Display Command Parameters
  rw [hmod] at htrace
  refine ⟨htrace, ?_, ?_, commits_writeByte_length _ _ _, ?_⟩
  · rw [htrace, delays_append, delays_writeByte]
    by_cases h : Command = 1 ∨ Command = 2
    · simp [h, delays]
    · simp [h, delays]
  · intro h
    rw [htrace, delays_append, delays_writeByte]
    simp [h, delays]
  · have hmask : (HD44780Command Display HD44780_CLEARDISPLAY 0).1.ActiveDisplays =
        Display.ActiveDisplays := by rw [command_fst]; rfl
    rw [command_snd_congr _ Display 1 0 hmask, command_snd]
    rfl

/-- C5, at a concrete input: cursor home is followed by the delay. -/
theorem command_delay_iff_witness :
    (2 : Nat) < 256 ∧ delays (HD44780Command ⟨⟨0, 50, 50⟩, 8, 4, 0, 32⟩ 2 0).2 = [2] :=
  ⟨by decide,
    (command_delay_iff ⟨⟨0, 50, 50⟩, 8, 4, 0, 32⟩ 2 0 (by decide)).2.1.mpr (Or.inr rfl)⟩

/-- C6: for every session (any configuration bytes, any 8-bit mask `m`), the
events of `HD44780Reset` begin with exactly four single-nibble operations
sent as commands: three times the nibble `(32|16) >> 4 = 3`, then once the
nibble `32 >> 4 = 2`. They are the first eight events, each nibble being one
enable-high and one enable-low commit; every command byte comes after them. -/
theorem reset_begins_with_four_nibbles (Display : HD44780Display)
    (hm : Display.ActiveDisplays < 256) :
    (HD44780_FUNCTIONSET ||| HD44780_8BITINTERFACE) >>> 4 = 3 ∧
      (HD44780_FUNCTIONSET ||| HD44780_4BITINTERFACE) >>> 4 = 2 ∧
      (HD44780Reset Display).2.take 8 =
        (HD44780WriteNibble Display true 3).2 ++ (HD44780WriteNibble Display true 3).2 ++
          (HD44780WriteNibble Display true 3).2 ++ (HD44780WriteNibble Display true 2).2 ∧
      (HD44780Reset Display).2.take 8 =
        [Event.commit (Display.ActiveDisplays ||| 3), Event.commit 3,
         Event.commit (Display.ActiveDisplays ||| 3), Event.commit 3,
         Event.commit (Display.ActiveDisplays ||| 3), Event.commit 3,
         Event.commit (Display.ActiveDisplays ||| 2), Event.commit 2] ∧
      (HD44780Reset Display).2.drop 8 =
        (HD44780Command Display HD44780_FUNCTIONSET Display.FunctionSet).2 ++
          (HD44780Command Display HD44780_DISPLAYONOFFCONTROL Display.DisplayOnOffControl).2 ++
          (HD44780Command Display HD44780_ENTRYMODESET Display.EntryModeSet).2 ++
          (HD44780Command Display HD44780_CLEARDISPLAY 0).2 ++
          (HD44780Command Display HD44780_CURSORHOME 0).2 := by
  have h3 : Display.ActiveDisplays ||| 3 < 256 :=
    Nat.or_lt_two_pow (n := 8) hm (by decide)
  have h2 : Display.ActiveDisplays ||| 2 < 256 :=
    Nat.or_lt_two_pow (n := 8) hm (by decide)
  have hn3 : (HD44780WriteNibble Display true 3).2 =
      [Event.commit (Display.ActiveDisplays ||| 3), Event.commit 3] := by
    rw [writeNibble_snd]
    simp only [registerSelect, if_true, HD44780_RSCOMMAND, Nat.zero_or]
    rw [show (3 : Nat) &&& 15 = 3 from rfl, Nat.mod_eq_of_lt h3]
  have hn2 : (HD44780WriteNibble Display true 2).2 =
      [Event.commit (Display.ActiveDisplays ||| 2), Event.commit 2] := by
    rw [writeNibble_snd]
    simp only [registerSelect, if_true, HD44780_RSCOMMAND, Nat.zero_or]
    rw [show (2 : Nat) &&& 15 = 2 from rfl, Nat.mod_eq_of_lt h2]
  refine ⟨by decide, by decide, ?_, ?_, ?_⟩
  · rw [reset_snd, hn3, hn2]; rfl
  · rw [reset_snd, hn3, hn2]; rfl
  · rw [reset_snd, hn3, hn2]; rfl

/-- C6, at a concrete input: the reset under the mask of all displays. -/
theorem reset_begins_with_four_nibbles_witness :
    (224 : Nat) < 256 ∧
      (HD44780Reset ⟨⟨0, 50, 50⟩, 8, 4, 0, 224⟩).2.take 8 =
        [Event.commit 0xE3, Event.commit 3, Event.commit 0xE3, Event.commit 3,
         Event.commit 0xE3, Event.commit 3, Event.commit 0xE2, Event.commit 2] :=
  ⟨by decide,
    (reset_begins_with_four_nibbles ⟨⟨0, 50, 50⟩, 8, 4, 0, 224⟩ (by decide)).2.2.2.1⟩

/-- C7: for every session with configuration bytes `fs`, `dc`, `em`, the
events of `HD44780Reset` after the four initial nibbles are those of
`HD44780Command` for function set with `fs`, display on/off control with
`dc`, entry mode set with `em`, clear display and cursor home, in that order,
that is the command bytes `32|fs`, `8|dc`, `4|em`, `1`, `2`. The whole reset is
14 nibble operations (28 commits) with exactly two processing delays, one
directly after the clear-display byte, one directly after the cursor-home
byte. -/
theorem reset_configures_after_nibbles (Display : HD44780Display) :
    (HD44780Reset Display).2.drop 8 =
        (HD44780Command Display HD44780_FUNCTIONSET Display.FunctionSet).2 ++
          (HD44780Command Display HD44780_DISPLAYONOFFCONTROL Display.DisplayOnOffControl).2 ++
          (HD44780Command Display HD44780_ENTRYMODESET Display.EntryModeSet).2 ++
          (HD44780Command Display HD44780_CLEARDISPLAY 0).2 ++
          (HD44780Command Display HD44780_CURSORHOME 0).2 ∧
      (HD44780Reset Display).2.drop 8 =
        (HD44780WriteByte Display true (32 ||| Display.FunctionSet)).2 ++
          (HD44780WriteByte Display true (8 ||| Display.DisplayOnOffControl)).2 ++
          (HD44780WriteByte Display true (4 ||| Display.EntryModeSet)).2 ++
          (HD44780WriteByte Display true 1).2 ++ [Event.delay 2] ++
          (HD44780WriteByte Display true 2).2 ++ [Event.delay 2] ∧
      (HD44780Reset Display).2 =
        (HD44780WriteNibble Display true 3).2 ++ (HD44780WriteNibble Display true 3).2 ++
          (HD44780WriteNibble Display true 3).2 ++ (HD44780WriteNibble Display true 2).2 ++
          (HD44780WriteNibble Display true ((32 ||| Display.FunctionSet) >>> 4)).2 ++
          (HD44780WriteNibble Display true ((32 ||| Display.FunctionSet) &&& 15)).2 ++
          (HD44780WriteNibble Display true ((8 ||| Display.DisplayOnOffControl) >>> 4)).2 ++
          (HD44780WriteNibble Display true ((8 ||| Display.DisplayOnOffControl) &&& 15)).2 ++
          (HD44780WriteNibble Display true ((4 ||| Display.EntryModeSet) >>> 4)).2 ++
          (HD44780WriteNibble Display true ((4 ||| Display.EntryModeSet) &&& 15)).2 ++
          (HD44780WriteNibble Display true (1 >>> 4)).2 ++
          (HD44780WriteNibble Display true (1 &&& 15)).2 ++ [Event.delay 2] ++
          (HD44780WriteNibble Display true (2 >>> 4)).2 ++
          (HD44780WriteNibble Display true (2 &&& 15)).2 ++ [Event.delay 2] ∧
      (commits (HD44780Reset Display).2).length = 28 ∧
      delays (HD44780Reset Display).2 = [2, 2] ∧
      (HD44780Reset Display).2.length = 30 := by
  have hlen : ∀ v, (HD44780WriteNibble Display true v).2.length = 2 := by
    intro v; rw [writeNibble_snd]; rfl
  have hcm : ∀ v, (commits (HD44780WriteNibble Display true v).2).length = 2 := by
    intro v; rw [writeNibble_snd]; rfl
  have hdl : ∀ v, delays (HD44780WriteNibble Display true v).2 = [] := by
    intro v; rw [writeNibble_snd]; rfl
  have hdrop : (HD44780Reset Display).2.drop 8 =
      (HD44780Command Display HD44780_FUNCTIONSET Display.FunctionSet).2 ++
        (HD44780Command Display HD44780_DISPLAYONOFFCONTROL Display.DisplayOnOffControl).2 ++
        (HD44780Command Display HD44780_ENTRYMODESET Display.EntryModeSet).2 ++
        (HD44780Command Display HD44780_CLEARDISPLAY 0).2 ++
        (HD44780Command Display HD44780_CURSORHOME 0).2 := by
    rw [reset_snd]
    simp only [writeNibble_snd]
    rfl
  have hfull : (HD44780Reset Display).2 =
      (HD44780WriteNibble Display true 3).2 ++ (HD44780WriteNibble Display true 3).2 ++
        (HD44780WriteNibble Display true 3).2 ++ (HD44780WriteNibble Display true 2).2 ++
        (HD44780WriteNibble Display true ((32 ||| Display.FunctionSet) >>> 4)).2 ++
        (HD44780WriteNibble Display true ((32 ||| Display.FunctionSet) &&& 15)).2 ++
        (HD44780WriteNibble Display true ((8 ||| Display.DisplayOnOffControl) >>> 4)).2 ++
        (HD44780WriteNibble Display true ((8 ||| Display.DisplayOnOffControl) &&& 15)).2 ++
        (HD44780WriteNibble Display true ((4 ||| Display.EntryModeSet) >>> 4)).2 ++
        (HD44780WriteNibble Display true ((4 ||| Display.EntryModeSet) &&& 15)).2 ++
        (HD44780WriteNibble Display true (1 >>> 4)).2 ++
        (HD44780WriteNibble Display true (1 &&& 15)).2 ++ [Event.delay 2] ++
        (HD44780WriteNibble Display true (2 >>> 4)).2 ++
        (HD44780WriteNibble Display true (2 &&& 15)).2 ++ [Event.delay 2] := by
    rw [reset_snd]
    simp only [command_snd, writeByte_snd, HD44780_FUNCTIONSET,
      HD44780_DISPLAYONOFFCONTROL, HD44780_ENTRYMODESET, HD44780_CLEARDISPLAY,
      HD44780_CURSORHOME, Nat.or_zero, List.append_assoc]
    rfl
  refine ⟨hdrop, ?_, hfull, ?_, ?_, ?_⟩
  · rw [hdrop]
    simp only [command_snd, HD44780_FUNCTIONSET, HD44780_DISPLAYONOFFCONTROL,
      HD44780_ENTRYMODESET, HD44780_CLEARDISPLAY, HD44780_CURSORHOME, Nat.or_zero,
      List.append_assoc]
    rfl
  · rw [hfull]
    simp only [commits_append, List.length_append, hcm]
    rfl
  · rw [hfull]
    simp only [delays_append, hdl]
    rfl
  · rw [hfull]
    simp only [List.length_append, hlen]
    rfl

/-- C8: for every triple of configuration bytes `fs`, `dc`, `em`,
`HD44780Init` emits exactly the events of `HD44780Reset` run on a session
with these bytes and the mask 224 of all displays: every enable-high commit
carries all three enable bits, every enable-low commit none. The session
returned has `ActiveDisplays = 32` (display #0 only), `FunctionSet = fs`,
`DisplayOnOffControl = dc` and `EntryModeSet = em`. -/
theorem init_resets_all_then_selects_first (fresh : ShiftRegister)
    ( ClockGPIO DataOutGPIO LatchGPIO : Nat) (fs dc em : Nat)
    (hfs : fs < 256) (hdc : dc < 256) (hem : em < 256) :
    (∀ D : HD44780Display, D.ActiveDisplays = 224 → D.FunctionSet = fs →
        D.DisplayOnOffControl = dc → D.EntryModeSet = em →
        (HD44780Init fresh ClockGPIO DataOutGPIO LatchGPIO fs dc em).2 =
          (HD44780Reset D).2) ∧
      (HD44780Init fresh ClockGPIO DataOutGPIO LatchGPIO fs dc em).1.ActiveDisplays = 32 ∧
      (HD44780Init fresh ClockGPIO DataOutGPIO LatchGPIO fs dc em).1.FunctionSet = fs ∧
      (HD44780Init fresh ClockGPIO DataOutGPIO LatchGPIO fs dc em).1.DisplayOnOffControl = dc ∧
      (HD44780Init fresh ClockGPIO DataOutGPIO LatchGPIO fs dc em).1.EntryModeSet = em ∧
      commits (HD44780Init fresh ClockGPIO DataOutGPIO LatchGPIO fs dc em).2 =
        [224 ||| 3, 3, 224 ||| 3, 3, 224 ||| 3, 3, 224 ||| 2, 2,
         224 ||| ((32 ||| fs) >>> 4), (32 ||| fs) >>> 4,
         224 ||| ((32 ||| fs) &&& 15), (32 ||| fs) &&& 15,
         224 ||| ((8 ||| dc) >>> 4), (8 ||| dc) >>> 4,
         224 ||| ((8 ||| dc) &&& 15), (8 ||| dc) &&& 15,
         224 ||| ((4 ||| em) >>> 4), (4 ||| em) >>> 4,
         224 ||| ((4 ||| em) &&& 15), (4 ||| em) &&& 15,
         224 ||| 0, 0, 224 ||| 1, 1,
         224 ||| 0, 0, 224 ||| 2, 2] ∧
      (∀ i, i < 14 →
        (commits (HD44780Init fresh ClockGPIO DataOutGPIO LatchGPIO fs dc em).2).getD
          (2 * i) 0 &&& 224 = 224) ∧
      (∀ i, i < 14 →
        (commits (HD44780Init fresh ClockGPIO DataOutGPIO LatchGPIO fs dc em).2).getD
          (2 * i + 1) 0 &&& 224 = 0) := by
  have hfs0 : ((fs % 256) ||| HD44780_4BITINTERFACE) % 256 = fs := by
    simp only [HD44780_4BITINTERFACE, Nat.or_zero, Nat.mod_mod]; omega
  have hdc0 : dc % 256 = dc := Nat.mod_eq_of_lt hdc
  have hem0 : em % 256 = em := Nat.mod_eq_of_lt hem
  have hreset : ∀ D : HD44780Display, D.ActiveDisplays = 224 → D.FunctionSet = fs →
      D.DisplayOnOffControl = dc → D.EntryModeSet = em →
      (HD44780Init fresh ClockGPIO DataOutGPIO LatchGPIO fs dc em).2 =
        (HD44780Reset D).2 := by
    intro D h1 h2 h3 h4
    simp only [HD44780Init, hfs0, hdc0, hem0]
    rw [reset_snd, reset_snd]
    simp only [writeNibble_snd, command_snd, writeByte_snd_explicit, h1, h2, h3, h4]
    rfl
  have hb1 : 32 ||| fs < 256 := Nat.or_lt_two_pow (n := 8) (by decide) hfs
  have hb2 : 8 ||| dc < 256 := Nat.or_lt_two_pow (n := 8) (by decide) hdc
  have hb3 : 4 ||| em < 256 := Nat.or_lt_two_pow (n := 8) (by decide) hem
  have hlist : commits (HD44780Init fresh ClockGPIO DataOutGPIO LatchGPIO fs dc em).2 =
      [224 ||| 3, 3, 224 ||| 3, 3, 224 ||| 3, 3, 224 ||| 2, 2,
       224 ||| ((32 ||| fs) >>> 4), (32 ||| fs) >>> 4,
       224 ||| ((32 ||| fs) &&& 15), (32 ||| fs) &&& 15,
       224 ||| ((8 ||| dc) >>> 4), (8 ||| dc) >>> 4,
       224 ||| ((8 ||| dc) &&& 15), (8 ||| dc) &&& 15,
       224 ||| ((4 ||| em) >>> 4), (4 ||| em) >>> 4,
       224 ||| ((4 ||| em) &&& 15), (4 ||| em) &&& 15,
       224 ||| 0, 0, 224 ||| 1, 1,
       224 ||| 0, 0, 224 ||| 2, 2] := by
    rw [hreset ⟨fresh, fs, dc, em, 224⟩ rfl rfl rfl rfl, reset_snd]
    simp only [command_snd, commits_append, HD44780_FUNCTIONSET,
      HD44780_DISPLAYONOFFCONTROL, HD44780_ENTRYMODESET, HD44780_CLEARDISPLAY,
      HD44780_CURSORHOME, Nat.or_zero]
    rw [commits_writeByte_all _ _ rfl hb1, commits_writeByte_all _ _ rfl hb2,
      commits_writeByte_all _ _ rfl hb3, commits_writeByte_all _ 1 rfl (by decide),
      commits_writeByte_all _ 2 rfl (by decide)]
    simp only [writeNibble_snd]
    rfl
  have hlo1 : (32 ||| fs) >>> 4 < 16 := by rw [shiftRight_four]; omega
  have hlo2 : (8 ||| dc) >>> 4 < 16 := by rw [shiftRight_four]; omega
  have hlo3 : (4 ||| em) >>> 4 < 16 := by rw [shiftRight_four]; omega
  have hand : ∀ x : Nat, x &&& 15 < 16 := fun x => Nat.and_lt_two_pow (n := 4) x (by decide)
  refine ⟨hreset, rfl, ?_, ?_, ?_, hlist, ?_, ?_⟩
  · simp only [HD44780Init, reset_fst, setOutputBuffer_FunctionSet, hfs0]
  · simp only [HD44780Init, reset_fst, setOutputBuffer_DisplayOnOffControl, hdc0]
  · simp only [HD44780Init, reset_fst, setOutputBuffer_EntryModeSet, hem0]
  · intro i hi
    rw [hlist]
    interval_cases i <;> exact or_and_enable _
  · intro i hi
    rw [hlist]
    interval_cases i <;>
      simp only [Nat.reduceMul, Nat.reduceAdd, List.getD_cons_succ, List.getD_cons_zero] <;>
      first
        | decide
        | exact nibble_and_enable _ hlo1
        | exact nibble_and_enable _ hlo2
        | exact nibble_and_enable _ hlo3
        | exact nibble_and_enable _ (hand _)

/-- C8, at a concrete input (scenario A): two lines with the 5x8 font,
display on, no display shift. The nibbles 3, 3, 3, 2 and the command bytes
`0x28`, `0x0C`, `0x04`, `0x01`, `0x02` go out under the mask 224. -/
theorem init_resets_all_then_selects_first_witness :
    (8 : Nat) < 256 ∧ (4 : Nat) < 256 ∧ (0 : Nat) < 256 ∧
      commits (HD44780Init ⟨0, 0, 0⟩ 8 7 9 (HD44780_DUTY2LINES ||| HD44780_5X8DOTS)
          HD44780_DISPLAYON HD44780_NODISPLAYSHIFT).2 =
        [0xE3, 0x03, 0xE3, 0x03, 0xE3, 0x03, 0xE2, 0x02,
         0xE2, 0x02, 0xE8, 0x08, 0xE0, 0x00, 0xEC, 0x0C,
         0xE0, 0x00, 0xE4, 0x04, 0xE0, 0x00, 0xE1, 0x01,
         0xE0, 0x00, 0xE2, 0x02] :=
  ⟨by decide, by decide, by decide,
    (init_resets_all_then_selects_first ⟨0, 0, 0⟩ 8 7 9 8 4 0
      (by decide) (by decide) (by decide)).2.2.2.2.2.1⟩

/-- C9: for every session and all 8-bit masks `m`, `m2`,
`HD44780SetActiveDisplays` emits no event, sets `ActiveDisplays` to exactly
`m` and leaves the transport and the three configuration bytes as they
were. Applying it twice with `m` gives the state of applying it once, and of
two calls the last one wins. -/
theorem setActiveDisplays_assigns (Display : HD44780Display) (m m2 : Nat)
    (hm : m < 256) (hm2 : m2 < 256) :
    (HD44780SetActiveDisplays Display m).2 = [] ∧
      (HD44780SetActiveDisplays Display m).1.ActiveDisplays = m ∧
      (HD44780SetActiveDisplays Display m).1.Register = Display.Register ∧
      (HD44780SetActiveDisplays Display m).1.FunctionSet = Display.FunctionSet ∧
      (HD44780SetActiveDisplays Display m).1.DisplayOnOffControl =
        Display.DisplayOnOffControl ∧
      (HD44780SetActiveDisplays Display m).1.EntryModeSet = Display.EntryModeSet ∧
      HD44780SetActiveDisplays (HD44780SetActiveDisplays Display m).1 m =
        HD44780SetActiveDisplays Display m ∧
      HD44780SetActiveDisplays (HD44780SetActiveDisplays Display m).1 m2 =
        HD44780SetActiveDisplays Display m2 ∧
      (HD44780SetActiveDisplays (HD44780SetActiveDisplays Display m).1 m2).1.ActiveDisplays =
        m2 :=
  ⟨rfl, Nat.mod_eq_of_lt hm, rfl, rfl, rfl, rfl, rfl, rfl, Nat.mod_eq_of_lt hm2⟩

/-- C9, at a concrete input: display #1, then displays #0 and #2. -/
theorem setActiveDisplays_assigns_witness :
    (64 : Nat) < 256 ∧ (160 : Nat) < 256 ∧
      (HD44780SetActiveDisplays ⟨⟨0, 50, 50⟩, 8, 4, 0, 32⟩ 64).1.ActiveDisplays = 64 ∧
      (HD44780SetActiveDisplays
        (HD44780SetActiveDisplays ⟨⟨0, 50, 50⟩, 8, 4, 0, 32⟩ 64).1 160).1.ActiveDisplays = 160 :=
  ⟨by decide, by decide,
    (setActiveDisplays_assigns ⟨⟨0, 50, 50⟩, 8, 4, 0, 32⟩ 64 160 (by decide) (by decide)).2.1,
    (setActiveDisplays_assigns ⟨⟨0, 50, 50⟩, 8, 4, 0, 32⟩ 64 160
      (by decide) (by decide)).2.2.2.2.2.2.2.2⟩

/-- C10, as stated, fails for a mask with a bit outside the enable bits:
after `HD44780SetActiveDisplays` with the mask 1, the command nibble 0 is
committed as 1 and then 0. The data bits of the first commit are 1, not 0,
and the two commits differ in bit 0, which is no enable bit. -/
theorem writeNibble_mask_bit_in_data :
    (HD44780SetActiveDisplays ⟨⟨0, 50, 50⟩, 8, 4, 0, 32⟩ 1).1.ActiveDisplays = 1 ∧
      commits (HD44780WriteNibble
        (HD44780SetActiveDisplays ⟨⟨0, 50, 50⟩, 8, 4, 0, 32⟩ 1).1 true 0).2 = [1, 0] ∧
      (1 : Nat) &&& 0xF ≠ 0 &&& 0xF ∧
      ((1 : Nat) ^^^ 0) &&& 0xE0 ≠ 1 ^^^ 0 := by
  decide

/-- C10, amended: for every value `v`, every register-select flag and every
session, the second commit `c2` of one `HD44780WriteNibble` has
`c2 & 0xF = v & 0xF` and `c2 & 0xE0 = 0`. When the mask has no bit outside
the three enable bits (`m & 0xE0 = m`), the first commit `c1` has
`c1 & 0xF = v & 0xF` as well, `c1` and `c2` differ only in enable bits
(`c1 XOR c2` has no bit outside `0xE0`, the register-select bit is the same
in both), and the enable bits of `c1` are the mask. -/
theorem writeNibble_commits_differ_in_enable (Display : HD44780Display) (IsCommand : Bool)
    (v : Nat) :
    commits (HD44780WriteNibble Display IsCommand v).2 =
        [(registerSelect IsCommand ||| Display.ActiveDisplays ||| (v &&& 15)) % 256,
         registerSelect IsCommand ||| (v &&& 15)] ∧
      (registerSelect IsCommand ||| (v &&& 15)) &&& 0xF = v &&& 0xF ∧
      (registerSelect IsCommand ||| (v &&& 15)) &&& 0xE0 = 0 ∧
      (Display.ActiveDisplays &&& 0xE0 = Display.ActiveDisplays →
        commits (HD44780WriteNibble Display IsCommand v).2 =
            [registerSelect IsCommand ||| Display.ActiveDisplays ||| (v &&& 15),
             registerSelect IsCommand ||| (v &&& 15)] ∧
          (registerSelect IsCommand ||| Display.ActiveDisplays ||| (v &&& 15)) &&& 0xF =
            v &&& 0xF ∧
          ((registerSelect IsCommand ||| Display.ActiveDisplays ||| (v &&& 15)) ^^^
              (registerSelect IsCommand ||| (v &&& 15))) &&& 0xE0 =
            (registerSelect IsCommand ||| Display.ActiveDisplays ||| (v &&& 15)) ^^^
              (registerSelect IsCommand ||| (v &&& 15)) ∧
          (registerSelect IsCommand ||| Display.ActiveDisplays ||| (v &&& 15)) &&& 16 =
            (registerSelect IsCommand ||| (v &&& 15)) &&& 16 ∧
          (registerSelect IsCommand ||| Display.ActiveDisplays ||| (v &&& 15)) &&& 0xE0 =
            Display.ActiveDisplays) := by
  have hc : commits (HD44780WriteNibble Display IsCommand v).2 =
      [(registerSelect IsCommand ||| Display.ActiveDisplays ||| (v &&& 15)) % 256,
       registerSelect IsCommand ||| (v &&& 15)] := by
    rw [writeNibble_snd]; rfl
  refine ⟨hc, enableLow_data IsCommand v, enableLow_enable IsCommand v, ?_⟩
  intro hm
  have h1 : v &&& 15 < 2 ^ 8 := Nat.and_lt_two_pow v (by decide)
  have h2 : registerSelect IsCommand < 2 ^ 8 :=
    Nat.lt_trans (registerSelect_le IsCommand) (by decide)
  have h3 : registerSelect IsCommand ||| Display.ActiveDisplays ||| (v &&& 15) < 256 :=
    Nat.or_lt_two_pow (n := 8) (Nat.or_lt_two_pow h2 (mask_lt _ hm)) h1
  refine ⟨?_, enableHigh_data IsCommand _ v hm, xor_within_enable _ _ _ hm,
    enableHigh_select IsCommand _ v hm, enableHigh_enable IsCommand _ v hm⟩
  rw [hc, Nat.mod_eq_of_lt h3]

/-- C10, amended, at a concrete input: display #1 active, data nibble 8. The
commits are `0x58` and `0x18`. -/
theorem writeNibble_commits_differ_in_enable_witness :
    (64 : Nat) &&& 0xE0 = 64 ∧
      commits (HD44780WriteNibble ⟨⟨0, 50, 50⟩, 8, 4, 0, 64⟩ false 8).2 = [0x58, 0x18] ∧
      ((0x58 : Nat) ^^^ 0x18) &&& 0xE0 = 0x58 ^^^ 0x18 :=
  ⟨by decide,
    ((writeNibble_commits_differ_in_enable ⟨⟨0, 50, 50⟩, 8, 4, 0, 64⟩ false 8).2.2.2
      (by decide)).1,
    ((writeNibble_commits_differ_in_enable ⟨⟨0, 50, 50⟩, 8, 4, 0, 64⟩ false 8).2.2.2
      (by decide)).2.2.1⟩

/-- The events of the text loop on a text of non-zero bytes. -/
theorem write_concat_aux (Display : HD44780Display) (Text : List Nat)
    (h : ∀ c ∈ Text, c % 256 ≠ 0) :
    (HD44780Write Display Text).2 =
      Text.flatMap (fun c => (HD44780WriteByte Display false c).2) := by
  rw [write_snd_takeWhile, takeWhile_nonzero Text h]

/-- The mask after one call: the argument for `HD44780SetActiveDisplays`, the
mask before for every other call. -/
theorem perform_ActiveDisplays (Display : HD44780Display) (k : Call) :
    (perform Display k).1.ActiveDisplays =
      match k with
      | Call.setActiveDisplays m => m % 256
      | _ => Display.ActiveDisplays := by
  cases k with
  | setActiveDisplays m => rfl
  | write Text => exact (write_fst_fields Display Text).1
  | command c p => simp only [perform, command_fst, setOutputBuffer_ActiveDisplays]
  | reset => simp only [perform, reset_fst, setOutputBuffer_ActiveDisplays]

/-- C11, as stated, fails: `HD44780SetActiveDisplays` stores any argument.
After construction and one call with the argument 1 the mask is 1, a bit
outside the three enable bits. -/
theorem mask_leaves_enable_bits :
    (run (HD44780Init ⟨0, 0, 0⟩ 8 7 9 8 4 0).1 [Call.setActiveDisplays 1]).1.ActiveDisplays =
        1 ∧
      (1 : Nat) &&& 224 ≠ 1 :=
  ⟨rfl, by decide⟩

/-- C11, amended: in every session state reached from the result of
`HD44780Init` by a finite sequence of calls to `HD44780SetActiveDisplays`,
`HD44780Write`, `HD44780Command` and `HD44780Reset`, in which every argument
of `HD44780SetActiveDisplays` has no bit outside the three enable bits, the
field `ActiveDisplays` has no bit outside the three enable bits. -/
theorem mask_within_enable_bits (fresh : ShiftRegister)
    ( ClockGPIO DataOutGPIO LatchGPIO : Nat) (fs dc em : Nat) (calls : List Call)
    (h : ∀ m, Call.setActiveDisplays m ∈ calls → m &&& 224 = m) :
    (run (HD44780Init fresh ClockGPIO DataOutGPIO LatchGPIO fs dc em).1
        calls).1.ActiveDisplays &&& 224 =
      (run (HD44780Init fresh ClockGPIO DataOutGPIO LatchGPIO fs dc em).1
        calls).1.ActiveDisplays := by
  have hinit : (HD44780Init fresh ClockGPIO DataOutGPIO LatchGPIO fs dc em).1.ActiveDisplays
      &&& 224 = (HD44780Init fresh ClockGPIO DataOutGPIO LatchGPIO fs dc em).1.ActiveDisplays := by
    have h32 : (HD44780Init fresh ClockGPIO DataOutGPIO LatchGPIO fs dc em).1.ActiveDisplays =
        32 := rfl
    rw [h32]
    decide
  generalize (HD44780Init fresh ClockGPIO DataOutGPIO LatchGPIO fs dc em).1 = D at hinit
  induction calls generalizing D with
  | nil => exact hinit
  | cons k rest ih =>
    have hrest : ∀ m, Call.setActiveDisplays m ∈ rest → m &&& 224 = m :=
      fun m hm => h m (List.mem_cons_of_mem k hm)
    have hstep : (perform D k).1.ActiveDisplays &&& 224 = (perform D k).1.ActiveDisplays := by
      rw [perform_ActiveDisplays]
      cases k with
      | setActiveDisplays m =>
        have hm := h m (List.mem_cons_self _ rest)
        have hlt := mask_lt m hm
        simp only [Nat.mod_eq_of_lt hlt, hm]
      | write Text => exact hinit
      | command c p => exact hinit
      | reset => exact hinit
    exact ih hrest (perform D k).1 hstep

/-- C11, amended, at a concrete input: select display #1, write "Hi", select
displays #0 and #2, clear the display. -/
theorem mask_within_enable_bits_witness :
    (∀ m, Call.setActiveDisplays m ∈
        [Call.setActiveDisplays 64, Call.write [0x48, 0x69], Call.setActiveDisplays 160,
          Call.command 1 0] → m &&& 224 = m) ∧
      (run (HD44780Init ⟨0, 0, 0⟩ 8 7 9 8 4 0).1
        [Call.setActiveDisplays 64, Call.write [0x48, 0x69], Call.setActiveDisplays 160,
          Call.command 1 0]).1.ActiveDisplays &&& 224 =
      (run (HD44780Init ⟨0, 0, 0⟩ 8 7 9 8 4 0).1
        [Call.setActiveDisplays 64, Call.write [0x48, 0x69], Call.setActiveDisplays 160,
          Call.command 1 0]).1.ActiveDisplays :=
  ⟨by
      intro m hm
      simp only [List.mem_cons, Call.setActiveDisplays.injEq, List.mem_singleton,
        reduceCtorEq, or_false, false_or, List.not_mem_nil] at hm
      rcases hm with rfl | rfl <;> rfl,
    mask_within_enable_bits ⟨0, 0, 0⟩ 8 7 9 8 4 0 _ (by
      intro m hm
      simp only [List.mem_cons, Call.setActiveDisplays.injEq, List.mem_singleton,
        reduceCtorEq, or_false, false_or, List.not_mem_nil] at hm
      rcases hm with rfl | rfl <;> rfl)⟩

theorem flatMap_writeByte_length (Display : HD44780Display) (IsCommand : Bool)
    (Text : List Nat) :
    (Text.flatMap (fun c => (HD44780WriteByte Display IsCommand c).2)).length =
      4 * Text.length := by
  induction Text with
  | nil => rfl
  | cons c Text ih =>
    have hlen : (HD44780WriteByte Display IsCommand c).2.length = 4 := by
      rw [writeByte_snd_explicit]; rfl
    rw [List.flatMap_cons, List.length_append, ih, hlen, List.length_cons]
    omega

theorem takeWhile_append_nonzero (pre rest : List Nat) (h : ∀ c ∈ pre, c % 256 ≠ 0) :
    (pre ++ rest).takeWhile (fun c => decide (c % 256 ≠ 0)) =
      pre ++ rest.takeWhile (fun c => decide (c % 256 ≠ 0)) := by
  induction pre with
  | nil => rfl
  | cons c pre ih =>
    have hc : c % 256 ≠ 0 := h c (List.mem_cons_self c pre)
    have ht : ∀ x ∈ pre, x % 256 ≠ 0 := fun x hx => h x (List.mem_cons_of_mem c hx)
    rw [List.cons_append, List.takeWhile_cons_of_pos (by simpa using hc), ih ht,
      List.cons_append]

/-- The text loop writes a front part of non-zero bytes in full and goes on
with what follows it. -/
theorem write_snd_append (Display : HD44780Display) (pre rest : List Nat)
    (h : ∀ c ∈ pre, c % 256 ≠ 0) :
    (HD44780Write Display (pre ++ rest)).2 =
      pre.flatMap (fun c => (HD44780WriteByte Display false c).2) ++
        (HD44780Write Display rest).2 := by
  rw [write_snd_takeWhile, write_snd_takeWhile, takeWhile_append_nonzero pre rest h,
    List.flatMap_append]

/-- C12, as stated, fails for the byte value 0: in the text
`0x48, 0x00, 0x69` the zero byte at position 1 is not transferred and the
byte `0x69` after it is not transmitted either; the trace ends after the
four commits of `0x48`. -/
theorem write_drops_zero_byte :
    ((HD44780Write ⟨⟨0, 50, 50⟩, 8, 4, 0, 32⟩ [0x48, 0x00, 0x69]).2.drop 4).take 4 ≠
        (HD44780WriteByte ⟨⟨0, 50, 50⟩, 8, 4, 0, 32⟩ false 0x00).2 ∧
      (HD44780Write ⟨⟨0, 50, 50⟩, 8, 4, 0, 32⟩ [0x48, 0x00, 0x69]).2.drop 4 = [] ∧
      (HD44780Write ⟨⟨0, 50, 50⟩, 8, 4, 0, 32⟩ [0x48, 0x00, 0x69]).2.length = 4 := by
  decide

/-- C12, amended: `HD44780Write` passes every non-zero 8-bit value through.
For every byte value `c` other than 0 and every text of non-zero bytes that
has `c` at some position (after the bytes `pre`, before the bytes `post`),
the trace has the data-byte transfer of `c`, its nibbles `c >> 4` and
`c & 15` with register select data, at the corresponding position (events
`4 * |pre|` to `4 * |pre| + 3`), and the bytes after `c` are transmitted as
well. -/
theorem write_passes_nonzero_byte (Display : HD44780Display) (pre post : List Nat) (c : Nat)
    (hpre : ∀ x ∈ pre, x % 256 ≠ 0) (hc : c % 256 ≠ 0) (hpost : ∀ x ∈ post, x % 256 ≠ 0) :
    (HD44780Write Display (pre ++ c :: post)).2 =
        pre.flatMap (fun x => (HD44780WriteByte Display false x).2) ++
          ((HD44780WriteByte Display false c).2 ++
            post.flatMap (fun x => (HD44780WriteByte Display false x).2)) ∧
      ((HD44780Write Display (pre ++ c :: post)).2.drop (4 * pre.length)).take 4 =
        (HD44780WriteByte Display false c).2 ∧
      (HD44780WriteByte Display false c).2 =
        (HD44780WriteNibble Display false (c >>> 4)).2 ++
          (HD44780WriteNibble Display false (c &&& 15)).2 ∧
      (HD44780Write Display (pre ++ c :: post)).2.drop (4 * pre.length + 4) =
        post.flatMap (fun x => (HD44780WriteByte Display false x).2) := by
  have hall : ∀ x ∈ c :: post, x % 256 ≠ 0 := by
    intro x hx
    rcases List.mem_cons.mp hx with rfl | hx
    · exact hc
    · exact hpost x hx
  have htrace : (HD44780Write Display (pre ++ c :: post)).2 =
      pre.flatMap (fun x => (HD44780WriteByte Display false x).2) ++
        ((HD44780WriteByte Display false c).2 ++
          post.flatMap (fun x => (HD44780WriteByte Display false x).2)) := by
    rw [write_snd_append Display pre (c :: post) hpre, write_snd_takeWhile Display (c :: post),
      takeWhile_nonzero (c :: post) hall, List.flatMap_cons]
  have hlen := flatMap_writeByte_length Display false pre
  have hlen4 : (HD44780WriteByte Display false c).2.length = 4 := by
    rw [writeByte_snd_explicit]; rfl
  refine ⟨htrace, ?_, writeByte_snd Display false c, ?_⟩
  · rw [htrace, ← hlen, List.drop_left, ← hlen4, List.take_left]
  · rw [htrace, ← List.append_assoc]
    have hl : (pre.flatMap (fun x => (HD44780WriteByte Display false x).2) ++
        (HD44780WriteByte Display false c).2).length = 4 * pre.length + 4 := by
      rw [List.length_append, hlen, hlen4]
    rw [← hl, List.drop_left]

/-- C12, amended, at a concrete input: the byte `0x80` between `0x48` and
`0x69`. -/
theorem write_passes_nonzero_byte_witness :
    (∀ x ∈ [0x48], x % 256 ≠ 0) ∧ 0x80 % 256 ≠ 0 ∧ (∀ x ∈ [0x69], x % 256 ≠ 0) ∧
      ((HD44780Write ⟨⟨0, 50, 50⟩, 8, 4, 0, 32⟩ ([0x48] ++ 0x80 :: [0x69])).2.drop
          (4 * [0x48].length)).take 4 =
        (HD44780WriteByte ⟨⟨0, 50, 50⟩, 8, 4, 0, 32⟩ false 0x80).2 :=
  ⟨by decide, by decide, by decide,
    (write_passes_nonzero_byte ⟨⟨0, 50, 50⟩, 8, 4, 0, 32⟩ [0x48] [0x69] 0x80
      (by decide) (by decide) (by decide)).2.1⟩

theorem enableHigh_mod (IsCommand : Bool) (m v : Nat) (hm : m &&& 224 = m) :
    (registerSelect IsCommand ||| m ||| (v &&& 15)) % 256 =
      registerSelect IsCommand ||| m ||| (v &&& 15) := by
  have h1 : v &&& 15 < 2 ^ 8 := Nat.and_lt_two_pow v (by decide)
  have h2 : registerSelect IsCommand < 2 ^ 8 :=
    Nat.lt_trans (registerSelect_le IsCommand) (by decide)
  have h3 : registerSelect IsCommand ||| m ||| (v &&& 15) < 256 :=
    Nat.or_lt_two_pow (n := 8) (Nat.or_lt_two_pow h2 (mask_lt _ hm)) h1
  exact Nat.mod_eq_of_lt h3

/-- A data nibble has the register-select bit set in its enable-low byte. -/
theorem enableLow_select_data (v : Nat) : (registerSelect false ||| (v &&& 15)) &&& 16 = 16 := by
  rw [Nat.and_distrib_right, low_nibble_and_select]
  rfl

/-- The nibble operations of one byte written under a mask of enable bits. -/
theorem nibbleOps_writeByte (Display : HD44780Display) (IsCommand : Bool) (b : Nat)
    (rest : List Event) (hm : Display.ActiveDisplays &&& 224 = Display.ActiveDisplays) :
    nibbleOps (commits ((HD44780WriteByte Display IsCommand b).2 ++ rest)) =
      (registerSelect IsCommand ||| Display.ActiveDisplays ||| ((b >>> 4) &&& 15),
          registerSelect IsCommand ||| ((b >>> 4) &&& 15)) ::
        (registerSelect IsCommand ||| Display.ActiveDisplays ||| (b &&& 15),
          registerSelect IsCommand ||| (b &&& 15)) :: nibbleOps (commits rest) := by
  rw [writeByte_snd_explicit, enableHigh_mod _ _ _ hm]
  have h := enableHigh_mod IsCommand _ b hm
  rw [h]
  rfl

/-- The nibble operations of a text of bytes written under a mask of enable
bits: two for each byte. -/
theorem nibbleOps_flatMap_writeByte (Display : HD44780Display) (IsCommand : Bool)
    (Text : List Nat) (hm : Display.ActiveDisplays &&& 224 = Display.ActiveDisplays) :
    nibbleOps (commits (Text.flatMap (fun c => (HD44780WriteByte Display IsCommand c).2))) =
      Text.flatMap (fun c =>
        [(registerSelect IsCommand ||| Display.ActiveDisplays ||| ((c >>> 4) &&& 15),
            registerSelect IsCommand ||| ((c >>> 4) &&& 15)),
         (registerSelect IsCommand ||| Display.ActiveDisplays ||| (c &&& 15),
            registerSelect IsCommand ||| (c &&& 15))]) := by
  induction Text with
  | nil => rfl
  | cons c Text ih =>
    rw [List.flatMap_cons, nibbleOps_writeByte _ _ _ _ hm, ih, List.flatMap_cons]
    rfl

/-- C13: for every mask `m` that is a combination of the three enable bits
and every text of `n` non-zero bytes, `HD44780SetActiveDisplays` with `m`
followed by `HD44780Write` of the text emits exactly `2n` nibble operations
(`4n` commits, no delay): the nibbles `c >> 4` and `c & 15` of each byte in
turn. In each nibble operation the enable-high commit has enable bits exactly
`m` and the register-select bit set, the enable-low commit has enable bits
0. -/
theorem select_then_write (Display : HD44780Display) (m : Nat) (Text : List Nat)
    (hm : m &&& 224 = m) (htext : ∀ c ∈ Text, c % 256 ≠ 0) :
    (run Display [Call.setActiveDisplays m, Call.write Text]).2 =
        Text.flatMap (fun c =>
          (HD44780WriteNibble (HD44780SetActiveDisplays Display m).1 false (c >>> 4)).2 ++
            (HD44780WriteNibble (HD44780SetActiveDisplays Display m).1 false (c &&& 15)).2) ∧
      (commits (run Display [Call.setActiveDisplays m, Call.write Text]).2).length =
        4 * Text.length ∧
      delays (run Display [Call.setActiveDisplays m, Call.write Text]).2 = [] ∧
      (nibbleOps (commits (run Display [Call.setActiveDisplays m, Call.write Text]).2)).length =
        2 * Text.length ∧
      (∀ p ∈ nibbleOps (commits (run Display [Call.setActiveDisplays m, Call.write Text]).2),
        p.1 &&& 224 = m ∧ p.1 &&& 16 = 16 ∧ p.2 &&& 224 = 0) := by
  have hmask : (HD44780SetActiveDisplays Display m).1.ActiveDisplays = m :=
    Nat.mod_eq_of_lt (mask_lt m hm)
  have hm2 : (HD44780SetActiveDisplays Display m).1.ActiveDisplays &&& 224 =
      (HD44780SetActiveDisplays Display m).1.ActiveDisplays := by rw [hmask]; exact hm
  have hT : (run Display [Call.setActiveDisplays m, Call.write Text]).2 =
      Text.flatMap
        (fun c => (HD44780WriteByte (HD44780SetActiveDisplays Display m).1 false c).2) := by
    have h := (write_concat_aux (HD44780SetActiveDisplays Display m).1 Text htext)
    simp only [run, perform, List.append_nil]
    exact h
  refine ⟨?_, ?_, ?_, ?_, ?_⟩
  · rw [hT]
    simp only [writeByte_snd]
  · rw [hT]; exact commits_flatMap_writeByte_length _ false Text
  · rw [hT]; exact delays_flatMap_writeByte _ false Text
  · rw [hT, nibbleOps_flatMap_writeByte _ _ _ hm2]
    clear hT htext
    induction Text with
    | nil => rfl
    | cons c Text ih =>
      rw [List.flatMap_cons, List.length_append, ih, List.length_cons]
      simp only [List.length_cons, List.length_nil]
      omega
  · intro p hp
    rw [hT, nibbleOps_flatMap_writeByte _ _ _ hm2, List.mem_flatMap] at hp
    obtain ⟨c, _, hc⟩ := hp
    rw [hmask] at hc
    simp only [List.mem_cons, List.mem_singleton, List.not_mem_nil, or_false] at hc
    rcases hc with rfl | rfl
    · exact ⟨enableHigh_enable false m _ hm,
        (enableHigh_select false m _ hm).trans (enableLow_select_data _),
        enableLow_enable false _⟩
    · exact ⟨enableHigh_enable false m _ hm,
        (enableHigh_select false m _ hm).trans (enableLow_select_data _),
        enableLow_enable false _⟩

/-- C13, at a concrete input (scenario B): display #1 selected, the text
"Hi". Four nibble operations, commits `0x54, 0x14, 0x58, 0x18, 0x56, 0x16,
0x59, 0x19`. -/
theorem select_then_write_witness :
    (64 : Nat) &&& 224 = 64 ∧ (∀ c ∈ [0x48, 0x69], c % 256 ≠ 0) ∧
      (nibbleOps (commits (run ⟨⟨0, 50, 50⟩, 8, 4, 0, 32⟩
        [Call.setActiveDisplays 64, Call.write [0x48, 0x69]]).2)).length = 2 * 2 ∧
      commits (run ⟨⟨0, 50, 50⟩, 8, 4, 0, 32⟩
        [Call.setActiveDisplays 64, Call.write [0x48, 0x69]]).2 =
        [0x54, 0x14, 0x58, 0x18, 0x56, 0x16, 0x59, 0x19] :=
  ⟨by decide, by decide,
    (select_then_write ⟨⟨0, 50, 50⟩, 8, 4, 0, 32⟩ 64 [0x48, 0x69]
      (by decide) (by decide)).2.2.2.1,
    by decide⟩

theorem byte_of_nibbles (c : Nat) (h : c < 256) :
    (((c >>> 4) &&& 15) <<< 4) ||| (c &&& 15) = c := by
  have hlo : c &&& 15 < 2 ^ 4 := Nat.and_lt_two_pow c (by decide)
  have h1 := Nat.mul_add_lt_is_or hlo ((c >>> 4) &&& 15)
  rw [Nat.shiftLeft_eq, Nat.mul_comm, ← h1]
  simp only [and_fifteen, shiftRight_four]
  omega

theorem enableBit_within (i : Nat) (hi : i < 3) : enableBit i &&& 224 = enableBit i := by
  interval_cases i <;> rfl

/-- A byte with all enable bits clear has the enable bit of every slot clear. -/
theorem and_enableBit_of_low (x i : Nat) (hi : i < 3) (hx : x &&& 224 = 0) :
    x &&& enableBit i = 0 := by
  rw [← enableBit_within i hi, Nat.and_comm (enableBit i) 224, ← Nat.and_assoc, hx,
    Nat.zero_and]

theorem enableLow_enableBit (IsCommand : Bool) (v i : Nat) (hi : i < 3) :
    (registerSelect IsCommand ||| (v &&& 15)) &&& enableBit i = 0 :=
  and_enableBit_of_low _ i hi (enableLow_enable IsCommand v)

/-- The enable-high byte has the enable bit of a slot exactly when the mask
has it. -/
theorem enableHigh_enableBit (IsCommand : Bool) (m v i : Nat) (hi : i < 3) :
    (registerSelect IsCommand ||| m ||| (v &&& 15)) &&& enableBit i = m &&& enableBit i := by
  rw [Nat.and_distrib_right, Nat.and_distrib_right,
    and_enableBit_of_low _ i hi (registerSelect_and_enable IsCommand),
    and_enableBit_of_low _ i hi (low_nibble_and_enable v), Nat.zero_or, Nat.or_zero]

/-- The commits of a text of non-zero bytes under a mask of enable bits. -/
theorem commits_write_nonzero (Display : HD44780Display) (Text : List Nat)
    (hm : Display.ActiveDisplays &&& 224 = Display.ActiveDisplays)
    (h : ∀ c ∈ Text, c % 256 ≠ 0) :
    commits (HD44780Write Display Text).2 =
      Text.flatMap (fun c =>
        [registerSelect false ||| Display.ActiveDisplays ||| ((c >>> 4) &&& 15),
         registerSelect false ||| ((c >>> 4) &&& 15),
         registerSelect false ||| Display.ActiveDisplays ||| (c &&& 15),
         registerSelect false ||| (c &&& 15)]) := by
  rw [write_concat_aux Display Text h]
  clear h
  induction Text with
  | nil => rfl
  | cons c Text ih =>
    rw [List.flatMap_cons, commits_append, ih, List.flatMap_cons, writeByte_snd_explicit,
      enableHigh_mod _ _ _ hm]
    have h2 := enableHigh_mod false _ c hm
    rw [h2]
    rfl

/-- The controller of a slot in the mask latches both nibbles of a byte. -/
theorem latched_byte_selected (i prev h1 l1 h2 l2 : Nat) (rest : List Nat)
    (hp : prev &&& enableBit i = 0) (hh1 : h1 &&& enableBit i ≠ 0)
    (hl1 : l1 &&& enableBit i = 0) (hh2 : h2 &&& enableBit i ≠ 0)
    (hl2 : l2 &&& enableBit i = 0) :
    latched i prev (h1 :: l1 :: h2 :: l2 :: rest) =
      (decide (h1 &&& HD44780_RSDATA ≠ 0), h1 &&& 15) ::
        (decide (h2 &&& HD44780_RSDATA ≠ 0), h2 &&& 15) :: latched i l2 rest := by
  simp only [latched, hp, hh1, hl1, hh2, hl2, ne_eq, not_true_eq_false, not_false_eq_true,
    and_self, false_and, if_true, if_false]

/-- The controller of a slot outside the mask latches nothing of a byte. -/
theorem latched_byte_unselected (i prev h1 l1 h2 l2 : Nat) (rest : List Nat)
    (hp : prev &&& enableBit i = 0) (hh1 : h1 &&& enableBit i = 0)
    (hl1 : l1 &&& enableBit i = 0) (hh2 : h2 &&& enableBit i = 0) :
    latched i prev (h1 :: l1 :: h2 :: l2 :: rest) = latched i l2 rest := by
  simp only [latched, hp, hh1, hl1, hh2, ne_eq, not_true_eq_false, false_and, and_false,
    if_false]

/-- What the controller of a slot in the mask receives from the commits of a
text of non-zero bytes: the bytes, each flagged as data. -/
theorem assemble_latched_selected (i m : Nat) (Text : List Nat) (hi : i < 3)
    (hm : m &&& 224 = m) (hsel : m &&& enableBit i ≠ 0) (hb : ∀ c ∈ Text, c < 256) :
    ∀ prev, prev &&& enableBit i = 0 →
      assemble (latched i prev (Text.flatMap (fun c =>
        [registerSelect false ||| m ||| ((c >>> 4) &&& 15),
         registerSelect false ||| ((c >>> 4) &&& 15),
         registerSelect false ||| m ||| (c &&& 15),
         registerSelect false ||| (c &&& 15)]))) = Text.map (fun c => (true, c)) := by
  induction Text with
  | nil => intro prev _; rfl
  | cons c Text ih =>
    intro prev hp
    have hc : c < 256 := hb c (List.mem_cons_self c Text)
    have ht : ∀ x ∈ Text, x < 256 := fun x hx => hb x (List.mem_cons_of_mem c hx)
    have hh1 : (registerSelect false ||| m ||| ((c >>> 4) &&& 15)) &&& enableBit i ≠ 0 := by
      rw [enableHigh_enableBit _ _ _ _ hi]; exact hsel
    have hh2 : (registerSelect false ||| m ||| (c &&& 15)) &&& enableBit i ≠ 0 := by
      rw [enableHigh_enableBit _ _ _ _ hi]; exact hsel
    have hrs1 : (registerSelect false ||| m ||| ((c >>> 4) &&& 15)) &&& HD44780_RSDATA = 16 :=
      (enableHigh_select false m _ hm).trans (enableLow_select_data _)
    have hrs2 : (registerSelect false ||| m ||| (c &&& 15)) &&& HD44780_RSDATA = 16 :=
      (enableHigh_select false m _ hm).trans (enableLow_select_data _)
    rw [List.flatMap_cons, List.cons_append, List.cons_append, List.cons_append,
      List.cons_append, List.nil_append,
      latched_byte_selected i prev _ _ _ _ _ hp hh1 (enableLow_enableBit false _ i hi) hh2
        (enableLow_enableBit false _ i hi),
      hrs1, hrs2, enableHigh_data false m _ hm, enableHigh_data false m _ hm]
    simp only [assemble, List.map_cons]
    rw [ih ht _ (enableLow_enableBit false _ i hi), byte_of_nibbles c hc]
    rfl

/-- What the controller of a slot outside the mask receives from the commits
of a text: nothing. -/
theorem latched_unselected (i m : Nat) (Text : List Nat) (hi : i < 3)
    (hsel : m &&& enableBit i = 0) :
    ∀ prev, prev &&& enableBit i = 0 →
      latched i prev (Text.flatMap (fun c =>
        [registerSelect false ||| m ||| ((c >>> 4) &&& 15),
         registerSelect false ||| ((c >>> 4) &&& 15),
         registerSelect false ||| m ||| (c &&& 15),
         registerSelect false ||| (c &&& 15)])) = [] := by
  induction Text with
  | nil => intro prev _; rfl
  | cons c Text ih =>
    intro prev hp
    have hh1 : (registerSelect false ||| m ||| ((c >>> 4) &&& 15)) &&& enableBit i = 0 := by
      rw [enableHigh_enableBit _ _ _ _ hi]; exact hsel
    have hh2 : (registerSelect false ||| m ||| (c &&& 15)) &&& enableBit i = 0 := by
      rw [enableHigh_enableBit _ _ _ _ hi]; exact hsel
    rw [List.flatMap_cons, List.cons_append, List.cons_append, List.cons_append,
      List.cons_append, List.nil_append,
      latched_byte_unselected i prev _ _ _ _ _ hp hh1 (enableLow_enableBit false _ i hi) hh2]
    exact ih _ (enableLow_enableBit false _ i hi)

/-- C14: round trip through a receiving controller. For every mask `m` of
enable bits, every slot `i` and every text of non-zero bytes, the controller
on slot `i`, starting from a bus value with its enable bit low, receives from
the trace of `HD44780Write` exactly the bytes of the text, each flagged as
data, when the slot is in `m`; every other slot `j` in `m` receives the same
sequence; a slot that is not in `m` receives nothing. -/
theorem write_round_trip (Display : HD44780Display) (i start : Nat) (Text : List Nat)
    (hm : Display.ActiveDisplays &&& 224 = Display.ActiveDisplays) (hi : i < 3)
    (hstart : start &&& enableBit i = 0) (htext : ∀ c ∈ Text, c ≠ 0 ∧ c < 256) :
    (Display.ActiveDisplays &&& enableBit i ≠ 0 →
        decode i start (HD44780Write Display Text).2 = Text.map (fun c => (true, c))) ∧
      (Display.ActiveDisplays &&& enableBit i ≠ 0 →
        ∀ j start2, j < 3 → start2 &&& enableBit j = 0 →
          Display.ActiveDisplays &&& enableBit j ≠ 0 →
          decode j start2 (HD44780Write Display Text).2 =
            decode i start (HD44780Write Display Text).2) ∧
      (Display.ActiveDisplays &&& enableBit i = 0 →
        decode i start (HD44780Write Display Text).2 = []) := by
  have hnz : ∀ c ∈ Text, c % 256 ≠ 0 := by
    intro c hc
    have h := htext c hc
    rw [Nat.mod_eq_of_lt h.2]
    exact h.1
  have hb : ∀ c ∈ Text, c < 256 := fun c hc => (htext c hc).2
  have hsel : ∀ k s, k < 3 → s &&& enableBit k = 0 →
      Display.ActiveDisplays &&& enableBit k ≠ 0 →
      decode k s (HD44780Write Display Text).2 = Text.map (fun c => (true, c)) := by
    intro k s hk hs hin
    rw [decode, commits_write_nonzero Display Text hm hnz]
    exact assemble_latched_selected k _ Text hk hm hin hb s hs
  refine ⟨hsel i start hi hstart, ?_, ?_⟩
  · intro hin j start2 hj hs2 hjn
    rw [hsel i start hi hstart hin, hsel j start2 hj hs2 hjn]
  · intro hout
    rw [decode, commits_write_nonzero Display Text hm hnz,
      latched_unselected i _ Text hi hout start hstart]
    rfl

/-- C14, at a concrete input: displays #0 and #1 selected, the text "Hi".
Slot 0 receives `0x48, 0x69` as data. -/
theorem write_round_trip_witness :
    (96 : Nat) &&& 224 = 96 ∧ (0 : Nat) < 3 ∧ (0 : Nat) &&& enableBit 0 = 0 ∧
      (∀ c ∈ [0x48, 0x69], c ≠ 0 ∧ c < 256) ∧ (96 : Nat) &&& enableBit 0 ≠ 0 ∧
      decode 0 0 (HD44780Write ⟨⟨0, 50, 50⟩, 8, 4, 0, 96⟩ [0x48, 0x69]).2 =
        [(true, 0x48), (true, 0x69)] ∧
      decode 1 0 (HD44780Write ⟨⟨0, 50, 50⟩, 8, 4, 0, 96⟩ [0x48, 0x69]).2 =
        [(true, 0x48), (true, 0x69)] ∧
      decode 2 0 (HD44780Write ⟨⟨0, 50, 50⟩, 8, 4, 0, 96⟩ [0x48, 0x69]).2 = [] :=
  ⟨by decide, by decide, by decide, by decide, by decide,
    (write_round_trip ⟨⟨0, 50, 50⟩, 8, 4, 0, 96⟩ 0 0 [0x48, 0x69]
      (by decide) (by decide) (by decide) (by decide)).1 (by decide),
    by decide, by decide⟩

theorem mod_and_enable (x : Nat) : (x % 256) &&& 224 = x &&& 224 := by
  have h := Nat.and_pow_two_sub_one_eq_mod x 8
  have e : (2 : Nat) ^ 8 - 1 = 255 := by norm_num
  have e2 : (2 : Nat) ^ 8 = 256 := by norm_num
  rw [e, e2] at h
  rw [← h, Nat.and_assoc, show (255 : Nat) &&& 224 = 224 from rfl]

/-- The enable bits of an enable-high byte are those of the mask, whatever
the mask. -/
theorem enableHigh_enable_any (IsCommand : Bool) (m v : Nat) :
    ((registerSelect IsCommand ||| m ||| (v &&& 15)) % 256) &&& 224 = m &&& 224 := by
  rw [mod_and_enable, Nat.and_distrib_right, Nat.and_distrib_right,
    registerSelect_and_enable, low_nibble_and_enable, Nat.zero_or, Nat.or_zero]

theorem and_enable_and_self (m : Nat) : (m &&& 224) &&& m = m &&& 224 := by
  rw [Nat.and_comm m 224, Nat.and_assoc, Nat.and_self]

theorem enableWithin_nil (m : Nat) : enableWithin m [] := by
  intro c hc
  simp [commits] at hc

theorem enableWithin_append (m : Nat) (s t : List Event) (hs : enableWithin m s)
    (ht : enableWithin m t) : enableWithin m (s ++ t) := by
  intro c hc
  rw [commits_append, List.mem_append] at hc
  rcases hc with hc | hc
  · exact hs c hc
  · exact ht c hc

theorem enableWithin_delay (m ms : Nat) : enableWithin m [Event.delay ms] := by
  intro c hc
  simp [commits] at hc

/-- One nibble raises no enable bit outside the mask. -/
theorem enableWithin_writeNibble (Display : HD44780Display) (IsCommand : Bool) (v : Nat) :
    enableWithin Display.ActiveDisplays (HD44780WriteNibble Display IsCommand v).2 := by
  intro c hc
  rw [writeNibble_snd] at hc
  simp only [commits, List.mem_cons, List.mem_singleton, List.not_mem_nil, or_false] at hc
  rcases hc with rfl | rfl
  · rw [enableHigh_enable_any, and_enable_and_self]
  · rw [enableLow_enable, Nat.zero_and]

/-- One byte raises no enable bit outside the mask. -/
theorem enableWithin_writeByte (Display : HD44780Display) (IsCommand : Bool) (b : Nat) :
    enableWithin Display.ActiveDisplays (HD44780WriteByte Display IsCommand b).2 := by
  rw [writeByte_snd]
  exact enableWithin_append _ _ _ (enableWithin_writeNibble _ _ _)
    (enableWithin_writeNibble _ _ _)

/-- A command raises no enable bit outside the mask. -/
theorem enableWithin_command (Display : HD44780Display) (Command Parameters : Nat) :
    enableWithin Display.ActiveDisplays (HD44780Command Display Command Parameters).2 := by
  rw [command_snd]
  apply enableWithin_append _ _ _ (enableWithin_writeByte _ _ _)
  split
  · exact enableWithin_delay _ _
  · exact enableWithin_nil _

/-- A text raises no enable bit outside the mask. -/
theorem enableWithin_write (Display : HD44780Display) (Text : List Nat) :
    enableWithin Display.ActiveDisplays (HD44780Write Display Text).2 := by
  rw [write_snd_takeWhile]
  generalize Text.takeWhile (fun c => decide (c % 256 ≠ 0)) = written
  induction written with
  | nil => exact enableWithin_nil _
  | cons c written ih =>
    rw [List.flatMap_cons]
    exact enableWithin_append _ _ _ (enableWithin_writeByte _ _ _) ih

/-- The reset raises no enable bit outside the mask. -/
theorem enableWithin_reset (Display : HD44780Display) :
    enableWithin Display.ActiveDisplays (HD44780Reset Display).2 := by
  rw [reset_snd]
  repeat' first
    | exact enableWithin_writeNibble _ _ _
    | exact enableWithin_command _ _ _
    | apply enableWithin_append

/-- C15: enable bits of displays that are not addressed are never raised.
For every session with mask `m` and each of `HD44780WriteNibble`,
`HD44780WriteByte`, `HD44780Write`, `HD44780Command` and `HD44780Reset` with
any arguments, every commit `c` of the trace has `(c & 224) & ~m = 0`, here
written `(c & 224) & m = c & 224`. -/
theorem enable_bits_within_mask (Display : HD44780Display) (IsCommand : Bool)
    (v b Command Parameters : Nat) (Text : List Nat) :
    (∀ c ∈ commits (HD44780WriteNibble Display IsCommand v).2,
        (c &&& 224) &&& Display.ActiveDisplays = c &&& 224) ∧
      (∀ c ∈ commits (HD44780WriteByte Display IsCommand b).2,
        (c &&& 224) &&& Display.ActiveDisplays = c &&& 224) ∧
      (∀ c ∈ commits (HD44780Write Display Text).2,
        (c &&& 224) &&& Display.ActiveDisplays = c &&& 224) ∧
      (∀ c ∈ commits (HD44780Command Display Command Parameters).2,
        (c &&& 224) &&& Display.ActiveDisplays = c &&& 224) ∧
      (∀ c ∈ commits (HD44780Reset Display).2,
        (c &&& 224) &&& Display.ActiveDisplays = c &&& 224) :=
  ⟨enableWithin_writeNibble Display IsCommand v, enableWithin_writeByte Display IsCommand b,
    enableWithin_write Display Text, enableWithin_command Display Command Parameters,
    enableWithin_reset Display⟩

theorem restsLow_setOutputBuffer (Display : HD44780Display) (IsCommand : Bool) (v : Nat) :
    restsLow (setOutputBuffer Display (registerSelect IsCommand ||| (v &&& 15))) := by
  show ((registerSelect IsCommand ||| (v &&& 15)) % 256) &&& 224 = 0
  rw [mod_and_enable, enableLow_enable]

theorem restsLow_writeNibble (Display : HD44780Display) (IsCommand : Bool) (v : Nat) :
    restsLow (HD44780WriteNibble Display IsCommand v).1 := by
  rw [writeNibble_fst]; exact restsLow_setOutputBuffer _ _ _

theorem restsLow_writeByte (Display : HD44780Display) (IsCommand : Bool) (b : Nat) :
    restsLow (HD44780WriteByte Display IsCommand b).1 := by
  rw [writeByte_fst]; exact restsLow_setOutputBuffer _ _ _

theorem restsLow_command (Display : HD44780Display) (Command Parameters : Nat) :
    restsLow (HD44780Command Display Command Parameters).1 := by
  rw [command_fst]; exact restsLow_setOutputBuffer _ _ _

theorem restsLow_reset (Display : HD44780Display) : restsLow (HD44780Reset Display).1 := by
  rw [reset_fst]
  show ((2 : Nat) % 256) &&& 224 = 0
  rfl

/-- The text loop keeps the enable lines low. -/
theorem restsLow_write (Display : HD44780Display) (Text : List Nat) (h : restsLow Display) :
    restsLow (HD44780Write Display Text).1 := by
  induction Text generalizing Display with
  | nil => exact h
  | cons c Text ih =>
    by_cases hc : c % 256 = 0
    · simp only [HD44780Write, hc, if_true]; exact h
    · simp only [HD44780Write, hc, if_false]
      exact ih _ (restsLow_writeByte Display false c)

/-- A text loop that commits anything leaves the enable lines low. -/
theorem restsLow_write_of_commit (Display : HD44780Display) (Text : List Nat)
    (h : commits (HD44780Write Display Text).2 ≠ []) :
    restsLow (HD44780Write Display Text).1 := by
  cases Text with
  | nil => exact absurd rfl h
  | cons c Text =>
    by_cases hc : c % 256 = 0
    · simp only [HD44780Write, hc, if_true] at h
      exact absurd rfl h
    · simp only [HD44780Write, hc, if_false]
      exact restsLow_write _ Text (restsLow_writeByte Display false c)

/-- C16: the enable lines rest low between operations. The output value of
the transport has the three enable bits clear in the session returned by
`HD44780Init`; every public operation (`HD44780SetActiveDisplays`,
`HD44780Write`, `HD44780Command`, `HD44780Reset`, any argument, any mask)
preserves that; and after an operation that emits at least one commit it
holds whatever the state before, the last commit of a nibble operation having
all three enable bits clear. -/
theorem enable_lines_rest_low (fresh : ShiftRegister) ( ClockGPIO DataOutGPIO LatchGPIO : Nat)
    (fs dc em : Nat) (Display : HD44780Display) (k : Call) (IsCommand : Bool) (v : Nat) :
    restsLow (HD44780Init fresh ClockGPIO DataOutGPIO LatchGPIO fs dc em).1 ∧
      (restsLow Display → restsLow (perform Display k).1) ∧
      (commits (perform Display k).2 ≠ [] → restsLow (perform Display k).1) ∧
      restsLow (HD44780WriteNibble Display IsCommand v).1 ∧
      (∃ c1 c2, commits (HD44780WriteNibble Display IsCommand v).2 = [c1, c2] ∧
        c2 &&& 224 = 0 ∧
        (HD44780WriteNibble Display IsCommand v).1.Register.OutputBuffer = c2) := by
  refine ⟨?_, ?_, ?_, restsLow_writeNibble Display IsCommand v, ?_⟩
  · show (HD44780Reset _).1.Register.OutputBuffer &&& 224 = 0
    exact restsLow_reset _
  · intro h
    cases k with
    | setActiveDisplays m => exact h
    | write Text => exact restsLow_write Display Text h
    | command c p => exact restsLow_command Display c p
    | reset => exact restsLow_reset Display
  · intro h
    cases k with
    | setActiveDisplays m => exact absurd rfl h
    | write Text => exact restsLow_write_of_commit Display Text h
    | command c p => exact restsLow_command Display c p
    | reset => exact restsLow_reset Display
  · refine ⟨(registerSelect IsCommand ||| Display.ActiveDisplays ||| (v &&& 15)) % 256,
      registerSelect IsCommand ||| (v &&& 15), ?_, enableLow_enable IsCommand v, ?_⟩
    · rw [writeNibble_snd]; rfl
    · rw [writeNibble_fst, setOutputBuffer_OutputBuffer]
      have h := rs_or_nibble_lt IsCommand v
      omega

/-- C16, at a concrete input: a session whose output value has an enable bit
set; after the text "H" the enable lines are low. -/
theorem enable_lines_rest_low_witness :
    ¬ restsLow ⟨⟨0xE0, 50, 50⟩, 8, 4, 0, 64⟩ ∧
      commits (perform ⟨⟨0xE0, 50, 50⟩, 8, 4, 0, 64⟩ (Call.write [0x48])).2 ≠ [] ∧
      restsLow (perform ⟨⟨0xE0, 50, 50⟩, 8, 4, 0, 64⟩ (Call.write [0x48])).1 :=
  ⟨by unfold restsLow; decide, by decide,
    (enable_lines_rest_low ⟨0, 0, 0⟩ 8 7 9 8 4 0 ⟨⟨0xE0, 50, 50⟩, 8, 4, 0, 64⟩
      (Call.write [0x48]) false 0).2.2.1 (by decide)⟩

/-- The events of the reset as fourteen nibble operations and two delays. -/
theorem reset_snd_nibbles (Display : HD44780Display) :
    (HD44780Reset Display).2 =
      (HD44780WriteNibble Display true 3).2 ++ ((HD44780WriteNibble Display true 3).2 ++
        ((HD44780WriteNibble Display true 3).2 ++ ((HD44780WriteNibble Display true 2).2 ++
        ((HD44780WriteNibble Display true ((32 ||| Display.FunctionSet) >>> 4)).2 ++
        ((HD44780WriteNibble Display true ((32 ||| Display.FunctionSet) &&& 15)).2 ++
        ((HD44780WriteNibble Display true ((8 ||| Display.DisplayOnOffControl) >>> 4)).2 ++
        ((HD44780WriteNibble Display true ((8 ||| Display.DisplayOnOffControl) &&& 15)).2 ++
        ((HD44780WriteNibble Display true ((4 ||| Display.EntryModeSet) >>> 4)).2 ++
        ((HD44780WriteNibble Display true ((4 ||| Display.EntryModeSet) &&& 15)).2 ++
        ((HD44780WriteNibble Display true (1 >>> 4)).2 ++
        ((HD44780WriteNibble Display true (1 &&& 15)).2 ++ (Event.delay 2 ::
        ((HD44780WriteNibble Display true (2 >>> 4)).2 ++
        ((HD44780WriteNibble Display true (2 &&& 15)).2 ++
          [Event.delay 2])))))))))))))) := by
  rw [reset_snd]
  simp only [command_snd, writeByte_snd, HD44780_FUNCTIONSET,
    HD44780_DISPLAYONOFFCONTROL, HD44780_ENTRYMODESET, HD44780_CLEARDISPLAY,
    HD44780_CURSORHOME, Nat.or_zero, List.append_assoc]
  rfl

/-- The nibble operations of a trace that starts with one nibble. -/
theorem nibbleOps_writeNibble (Display : HD44780Display) (IsCommand : Bool) (v : Nat)
    (rest : List Event) :
    nibbleOps (commits ((HD44780WriteNibble Display IsCommand v).2 ++ rest)) =
      ((registerSelect IsCommand ||| Display.ActiveDisplays ||| (v &&& 15)) % 256,
        registerSelect IsCommand ||| (v &&& 15)) :: nibbleOps (commits rest) := by
  rw [writeNibble_snd]; rfl

theorem commits_delay_cons (ms : Nat) (rest : List Event) :
    commits (Event.delay ms :: rest) = commits rest := rfl

/-- The session after the text loop: only the output value may have changed. -/
theorem write_fst_shape (Display : HD44780Display) (Text : List Nat) :
    ∃ x, (HD44780Write Display Text).1 =
      { Display with Register := { Display.Register with OutputBuffer := x } } := by
  induction Text generalizing Display with
  | nil => exact ⟨Display.Register.OutputBuffer, rfl⟩
  | cons c Text ih =>
    by_cases hc : c % 256 = 0
    · exact ⟨Display.Register.OutputBuffer, by simp only [HD44780Write, hc, if_true]⟩
    · obtain ⟨x, hx⟩ := ih (HD44780WriteByte Display false c).1
      refine ⟨x, ?_⟩
      simp only [HD44780Write, hc, if_false]
      rw [hx, writeByte_fst]
      rfl

/-- C17: `HD44780Write`, `HD44780Command` and `HD44780Reset` change no session
field: `ActiveDisplays`, `FunctionSet`, `DisplayOnOffControl` and
`EntryModeSet` are after the call what they were before, only the output
value of the transport changes. `HD44780Reset` on a session with mask `m`
runs all its fourteen nibble operations under `m` (the enable bits of every
enable-high commit are those of `m`, not all three) and returns with the
mask `m`. -/
theorem operations_keep_fields (Display : HD44780Display) (Text : List Nat)
    (Command Parameters : Nat) :
    ((HD44780Write Display Text).1.ActiveDisplays = Display.ActiveDisplays ∧
        (HD44780Write Display Text).1.FunctionSet = Display.FunctionSet ∧
        (HD44780Write Display Text).1.DisplayOnOffControl = Display.DisplayOnOffControl ∧
        (HD44780Write Display Text).1.EntryModeSet = Display.EntryModeSet) ∧
      ((HD44780Command Display Command Parameters).1.ActiveDisplays =
          Display.ActiveDisplays ∧
        (HD44780Command Display Command Parameters).1.FunctionSet = Display.FunctionSet ∧
        (HD44780Command Display Command Parameters).1.DisplayOnOffControl =
          Display.DisplayOnOffControl ∧
        (HD44780Command Display Command Parameters).1.EntryModeSet = Display.EntryModeSet) ∧
      ((HD44780Reset Display).1.ActiveDisplays = Display.ActiveDisplays ∧
        (HD44780Reset Display).1.FunctionSet = Display.FunctionSet ∧
        (HD44780Reset Display).1.DisplayOnOffControl = Display.DisplayOnOffControl ∧
        (HD44780Reset Display).1.EntryModeSet = Display.EntryModeSet) ∧
      (∃ x, (HD44780Write Display Text).1 =
        { Display with Register := { Display.Register with OutputBuffer := x } }) ∧
      (∃ x, (HD44780Command Display Command Parameters).1 =
        { Display with Register := { Display.Register with OutputBuffer := x } }) ∧
      (∃ x, (HD44780Reset Display).1 =
        { Display with Register := { Display.Register with OutputBuffer := x } }) ∧
      (nibbleOps (commits (HD44780Reset Display).2)).length = 14 ∧
      (∀ p ∈ nibbleOps (commits (HD44780Reset Display).2),
        p.1 &&& 224 = Display.ActiveDisplays &&& 224 ∧ p.2 &&& 224 = 0) := by
  have hops : nibbleOps (commits (HD44780Reset Display).2) =
      [3, 3, 3, 2, (32 ||| Display.FunctionSet) >>> 4, (32 ||| Display.FunctionSet) &&& 15,
        (8 ||| Display.DisplayOnOffControl) >>> 4, (8 ||| Display.DisplayOnOffControl) &&& 15,
        (4 ||| Display.EntryModeSet) >>> 4, (4 ||| Display.EntryModeSet) &&& 15,
        1 >>> 4, 1 &&& 15, 2 >>> 4, 2 &&& 15].map (fun v =>
          ((registerSelect true ||| Display.ActiveDisplays ||| (v &&& 15)) % 256,
            registerSelect true ||| (v &&& 15))) := by
    rw [reset_snd_nibbles]
    simp only [nibbleOps_writeNibble, commits_delay_cons]
    rfl
  refine ⟨write_fst_fields Display Text, ?_, ?_, write_fst_shape Display Text, ?_, ?_, ?_, ?_⟩
  · rw [command_fst]; exact ⟨rfl, rfl, rfl, rfl⟩
  · rw [reset_fst]; exact ⟨rfl, rfl, rfl, rfl⟩
  · exact ⟨_, command_fst Display Command Parameters⟩
  · exact ⟨_, reset_fst Display⟩
  · rw [hops]; rfl
  · intro p hp
    rw [hops, List.mem_map] at hp
    obtain ⟨v, _, rfl⟩ := hp
    exact ⟨enableHigh_enable_any true _ v, enableLow_enable true v⟩

/-- C18, as stated, fails for an argument that has the 8-bit-interface bit
set: with `FunctionSet = 16 | 8 = 24` the session stores 24, the bit still
set, since `FunctionSet | HD44780_4BITINTERFACE` is an OR with 0 and the
argument is stored as given; the function-set byte of the reset is
`32 | 24 = 0x38` (commits 8 to 11), bit 4 set. -/
theorem init_keeps_eight_bit_flag :
    (HD44780Init ⟨0, 0, 0⟩ 8 7 9 (HD44780_8BITINTERFACE ||| HD44780_DUTY2LINES) 4 0).1.FunctionSet
        = 24 ∧
      (24 : Nat) &&& HD44780_8BITINTERFACE ≠ 0 ∧
      ((commits (HD44780Init ⟨0, 0, 0⟩ 8 7 9
          (HD44780_8BITINTERFACE ||| HD44780_DUTY2LINES) 4 0).2).drop 8).take 4 =
        [0xE3, 0x03, 0xE8, 0x08] ∧
      (((0x03 : Nat) <<< 4) ||| 0x08) &&& 16 ≠ 0 := by
  refine ⟨?_, by decide, ?_, by decide⟩
  · simp only [HD44780Init, reset_fst, setOutputBuffer_FunctionSet]
    rfl
  · simp only [HD44780Init, reset_snd, command_snd, writeByte_snd_explicit, writeNibble_snd]
    rfl

/-- C18, amended: `HD44780Init` stores the `FunctionSet` argument as given.
For every `FunctionSet` byte that has the 8-bit-interface bit (16) clear, the
value stored in the session has bit 16 clear, and the function-set command
byte transmitted during the reset, `32 | FunctionSet` (commits 8 to 11, high
nibble then low nibble under the mask 224), has bit 4 clear. -/
theorem init_function_set_four_bit (fresh : ShiftRegister)
    ( ClockGPIO DataOutGPIO LatchGPIO : Nat) (fs dc em : Nat) (hfs : fs < 256)
    (hbit : fs &&& HD44780_8BITINTERFACE = 0) :
    (HD44780Init fresh ClockGPIO DataOutGPIO LatchGPIO fs dc em).1.FunctionSet = fs ∧
      (HD44780Init fresh ClockGPIO DataOutGPIO LatchGPIO fs dc em).1.FunctionSet &&&
        HD44780_8BITINTERFACE = 0 ∧
      (HD44780_FUNCTIONSET |||
        (HD44780Init fresh ClockGPIO DataOutGPIO LatchGPIO fs dc em).1.FunctionSet) &&& 16
        = 0 ∧
      ((commits (HD44780Init fresh ClockGPIO DataOutGPIO LatchGPIO fs dc em).2).drop 8).take 4 =
        [224 ||| ((32 ||| fs) >>> 4), (32 ||| fs) >>> 4,
         224 ||| ((32 ||| fs) &&& 15), (32 ||| fs) &&& 15] ∧
      ((((32 ||| fs) >>> 4) <<< 4) ||| ((32 ||| fs) &&& 15)) = 32 ||| fs := by
  have hfs0 : ((fs % 256) ||| HD44780_4BITINTERFACE) % 256 = fs := by
    simp only [HD44780_4BITINTERFACE, Nat.or_zero, Nat.mod_mod]; omega
  have hstored : (HD44780Init fresh ClockGPIO DataOutGPIO LatchGPIO fs dc em).1.FunctionSet =
      fs := by
    simp only [HD44780Init, reset_fst, setOutputBuffer_FunctionSet, hfs0]
  have hb : 32 ||| fs < 256 := Nat.or_lt_two_pow (n := 8) (by decide) hfs
  have hbyte : (32 ||| fs) &&& 16 = 0 := by
    rw [Nat.and_distrib_right, hbit]
    rfl
  refine ⟨hstored, ?_, ?_, ?_, ?_⟩
  · rw [hstored]; exact hbit
  · rw [hstored]; exact hbyte
  · simp only [HD44780Init, hfs0]
    rw [reset_snd]
    simp only [commits_append, HD44780_FUNCTIONSET, command_snd]
    rw [commits_writeByte_all _ (32 ||| fs) rfl hb]
    simp only [writeNibble_snd]
    rfl
  · have h := byte_of_nibbles (32 ||| fs) hb
    rw [high_nibble_of_byte _ hb] at h
    exact h

/-- C18, amended, at a concrete input: two lines with the 5x8 font,
`FunctionSet = 8`. The function-set byte is `0x28`. -/
theorem init_function_set_four_bit_witness :
    (8 : Nat) < 256 ∧ (8 : Nat) &&& HD44780_8BITINTERFACE = 0 ∧
      (HD44780Init ⟨0, 0, 0⟩ 8 7 9 8 4 0).1.FunctionSet = 8 ∧
      ((commits (HD44780Init ⟨0, 0, 0⟩ 8 7 9 8 4 0).2).drop 8).take 4 =
        [0xE2, 0x02, 0xE8, 0x08] :=
  ⟨by decide, by decide,
    (init_function_set_four_bit ⟨0, 0, 0⟩ 8 7 9 8 4 0 (by decide) (by decide)).1,
    (init_function_set_four_bit ⟨0, 0, 0⟩ 8 7 9 8 4 0 (by decide) (by decide)).2.2.2.1⟩

theorem and_or_self_left (a b : Nat) : a &&& (a ||| b) = a := by
  apply Nat.eq_of_testBit_eq
  intro i
  simp only [Nat.testBit_and, Nat.testBit_or]
  cases a.testBit i <;> simp

/-- An opcode other than 0 whose command byte is clear display or cursor home
is that instruction itself. -/
theorem opcode_of_byte (Command Parameters : Nat) (hop : Command ≠ 0)
    (h : Command ||| Parameters = 1 ∨ Command ||| Parameters = 2) :
    Command = 1 ∨ Command = 2 := by
  have habs := and_or_self_left Command Parameters
  rcases h with h | h
  · rw [h] at habs
    have hle : Command &&& 1 ≤ 1 := Nat.and_le_right
    left; omega
  · rw [h] at habs
    have hle : Command &&& 2 ≤ 2 := Nat.and_le_right
    have hc : Command ≤ 2 := by omega
    interval_cases Command
    · exact absurd rfl hop
    · exact absurd habs (by decide)
    · right; rfl

/-- C19, as stated, fails: with the opcode 0 and the parameter byte 1 the
command byte transmitted is clear display (1), the same four commits as for
opcode 1 with parameter 0, but no processing delay follows, since the test is
on the opcode argument alone. -/
theorem command_no_delay_for_opcode_zero :
    (0 : Nat) ||| 1 = HD44780_CLEARDISPLAY ∧
      commits (HD44780Command ⟨⟨0, 50, 50⟩, 8, 4, 0, 32⟩ 0 1).2 =
        commits (HD44780Command ⟨⟨0, 50, 50⟩, 8, 4, 0, 32⟩ 1 0).2 ∧
      commits (HD44780Command ⟨⟨0, 50, 50⟩, 8, 4, 0, 32⟩ 0 1).2 = [0x20, 0x00, 0x21, 0x01] ∧
      delays (HD44780Command ⟨⟨0, 50, 50⟩, 8, 4, 0, 32⟩ 0 1).2 = [] ∧
      delays (HD44780Command ⟨⟨0, 50, 50⟩, 8, 4, 0, 32⟩ 1 0).2 = [2] := by
  decide

/-- C19, amended: for every opcode other than 0 and every parameter byte
such that the command byte transmitted, `opcode | parameters`, is clear
display (1) or cursor home (2), `HD44780Command` emits the processing delay
after the write. With the opcode 0 no delay is emitted, whatever byte the
parameters make. -/
theorem command_delay_of_byte (Display : HD44780Display) (Command Parameters : Nat)
    (hc : Command < 256) :
    (Command ≠ 0 →
        (Command ||| Parameters = HD44780_CLEARDISPLAY ∨
          Command ||| Parameters = HD44780_CURSORHOME) →
        (HD44780Command Display Command Parameters).2 =
            (HD44780WriteByte Display true (Command ||| Parameters)).2 ++
              [Event.delay HD44780_PROCESSING_DELAY] ∧
          delays (HD44780Command Display Command Parameters).2 = [2]) ∧
      (Command = 0 →
        (HD44780Command Display Command Parameters).2 =
            (HD44780WriteByte Display true (Command ||| Parameters)).2 ∧
          delays (HD44780Command Display Command Parameters).2 = []) := by
  have hmod : Command % 256 = Command := Nat.mod_eq_of_lt hc
  constructor
  · intro hop hbyte
    have h12 := opcode_of_byte Command Parameters hop hbyte
    have ht : (HD44780Command Display Command Parameters).2 =
        (HD44780WriteByte Display true (Command ||| Parameters)).2 ++
          [Event.delay HD44780_PROCESSING_DELAY] := by
      rw [command_snd, hmod, if_pos h12]
    refine ⟨ht, ?_⟩
    rw [ht, delays_append, delays_writeByte]
    rfl
  · intro h0
    have ht : (HD44780Command Display Command Parameters).2 =
        (HD44780WriteByte Display true (Command ||| Parameters)).2 := by
      rw [command_snd, hmod, h0, if_neg (by decide), List.append_nil]
    exact ⟨ht, by rw [ht, delays_writeByte]⟩

/-- C19, amended, at a concrete input: cursor home with the parameter 2. -/
theorem command_delay_of_byte_witness :
    (2 : Nat) < 256 ∧
      ((2 : Nat) ||| 2 = HD44780_CLEARDISPLAY ∨ (2 : Nat) ||| 2 = HD44780_CURSORHOME) ∧
      (2 : Nat) ≠ 0 ∧
      delays (HD44780Command ⟨⟨0, 50, 50⟩, 8, 4, 0, 32⟩ 2 2).2 = [2] :=
  ⟨by decide, by decide, by decide,
    ((command_delay_of_byte ⟨⟨0, 50, 50⟩, 8, 4, 0, 32⟩ 2 2 (by decide)).1
      (by decide) (by decide)).2⟩

end HD44780
